import Mathlib

/-!
Verification of the NodeConductor cost-tracking engine
(`nodeconductor/cost_tracking/models.py` and `nodeconductor/cost_tracking/__init__.py`):
prorated monthly cost estimation (`PriceEstimate.update_price_for_resource`),
consumption accrual (`ConsumptionDetails`) and hierarchical estimate
aggregation (`PriceEstimate.update_ancestors` / `update_from_leaf`).

Modelling conventions:
* Python floats (the `total` / `consumed` fields and `monthly_cost`) are
  modelled as rationals, so the arithmetic of the source is represented
  exactly; `round(x, 2)` is modelled as exact round-half-to-even at two
  decimal places on rationals.
* `datetime` values are modelled at second resolution (the source only ever
  compares months and divides second / minute differences, and the sub-second
  parts of `datetime.time.max` can never change a truncated minute count).
* Django ORM tables are modelled as lists of records; `get_or_create`,
  `save`, `filter` and M2M membership are modelled by the corresponding list
  operations with first-match semantics, as in the ORM.
-/

namespace CostTracking

/-- The integer nearest to `q`, ties to even (banker's rounding, as Python's
builtin `round` uses).  Written with integer arithmetic on the reduced
numerator and denominator so that the kernel can evaluate it: `f` is `⌊q⌋`
and `r / q.den` is the fractional part of `q`, compared against one half. -/
def roundHalfEvenInt (q : ℚ) : ℤ :=
  let f := q.num.fdiv q.den
  let r := q.num - f * q.den
  if 2 * r < (q.den : ℤ) then f
  else if 2 * r > (q.den : ℤ) then f + 1
  else if f % 2 = 0 then f else f + 1

/-- Python's `round(x, 2)`: round to two decimal places, ties to even. -/
def round2 (q : ℚ) : ℚ := (roundHalfEvenInt (q * 100) : ℚ) / 100

/-- Gregorian leap-year test, as used by Python's `calendar` module. -/
def isLeapYear (y : ℕ) : Bool := y % 4 = 0 && (y % 100 ≠ 0 || y % 400 = 0)

/-- `calendar.monthrange(y, m)[1]`: the number of days of month `m` of year `y`. -/
def daysInMonth (y m : ℕ) : ℕ :=
  if m = 2 then (if isLeapYear y then 29 else 28)
  else if m = 4 ∨ m = 6 ∨ m = 9 ∨ m = 11 then 30
  else 31

/-- A `datetime.datetime` at second resolution. -/
structure DateTime where
  year : ℕ
  month : ℕ
  day : ℕ
  hour : ℕ
  minute : ℕ
  second : ℕ
deriving DecidableEq, Repr

/-- Days of the proleptic Gregorian calendar strictly before January 1 of
year `y` (so `Date(y,1,1).toordinal() = daysBeforeYear y + 1`). -/
def daysBeforeYear (y : ℕ) : ℕ :=
  365 * (y - 1) + (y - 1) / 4 - (y - 1) / 100 + (y - 1) / 400

/-- Days of year `y` strictly before the first day of month `m`. -/
def daysBeforeMonth (y m : ℕ) : ℕ :=
  (List.range (m - 1)).foldl (fun a k => a + daysInMonth y (k + 1)) 0

/-- Seconds from the proleptic-Gregorian epoch to `d`; datetime subtraction
(`(a - b).total_seconds()`) is `epochSeconds a - epochSeconds b`. -/
def epochSeconds (d : DateTime) : ℤ :=
  ((daysBeforeYear d.year + daysBeforeMonth d.year d.month + (d.day - 1)) * 86400
    + d.hour * 3600 + d.minute * 60 + d.second : ℕ)

/-- Seconds from the start of `d`'s month to `d`; this is
`(d - d.replace(day=1, hour=0, minute=0, second=0)).total_seconds()`. -/
def secondsIntoMonth (d : DateTime) : ℕ :=
  (d.day - 1) * 86400 + d.hour * 3600 + d.minute * 60 + d.second

/-- `seconds_in_month` of `update_price_for_resource`: length in seconds of
the month `(year, month)`, computed from `calendar.monthrange`. -/
def seconds_in_month (y m : ℕ) : ℕ := daysInMonth y m * 86400

/-- The `prorata_cost` closure of `PriceEstimate.update_price_for_resource`:
`round(monthly_cost * work_interval.total_seconds() / seconds_in_month, 2)`. -/
def prorata_cost (monthly_cost sim interval_seconds : ℚ) : ℚ :=
  round2 (monthly_cost * interval_seconds / sim)

theorem roundHalfEvenInt_intCast (n : ℤ) : roundHalfEvenInt (n : ℚ) = n := by
  simp [roundHalfEvenInt, Rat.num_intCast, Rat.den_intCast, Int.fdiv_one]

theorem round2_hundredth (n : ℤ) : round2 ((n : ℚ) / 100) = (n : ℚ) / 100 := by
  have h : ((n : ℚ) / 100) * 100 = (n : ℚ) := by
    field_simp
  rw [round2, h, roundHalfEvenInt_intCast]

theorem seconds_in_month_pos (y m : ℕ) : 0 < seconds_in_month y m := by
  unfold seconds_in_month daysInMonth
  split
  · split <;> norm_num
  · split <;> norm_num

/-- Proration of the full month interval always yields `round2 monthly_cost`. -/
theorem prorata_cost_full_month (mc : ℚ) (y m : ℕ) :
    prorata_cost mc (seconds_in_month y m) (seconds_in_month y m) = round2 mc := by
  have h : (seconds_in_month y m : ℚ) ≠ 0 :=
    Nat.cast_ne_zero.mpr (Nat.pos_iff_ne_zero.mp (seconds_in_month_pos y m))
  unfold prorata_cost
  rw [mul_div_assoc, div_self h, mul_one]

/-- A `PriceEstimate` row of one fixed resource, as touched by
`update_price_for_resource` (which filters on `object_id` / `content_type` of
that resource throughout, so the scope columns are left implicit). -/
structure EstimateRow where
  month : ℕ
  year : ℕ
  is_manually_input : Bool
  total : ℚ
  consumed : ℚ
deriving DecidableEq, Repr

/-- `cls.objects.get(...)` part of the `get_or_create` in `update_estimate`:
the row of the resource for `(month, year, is_manually_input=False)`. -/
def find_estimate (s : List EstimateRow) (month year : ℕ) : Option EstimateRow :=
  s.find? (fun r => r.month = month ∧ r.year = year ∧ r.is_manually_input = false)

/-- The `update_estimate` closure of `update_price_for_resource`:
get-or-create the row for `(month, year, is_manually_input=False)` and, when
`update_if_exists` or the row was just created, store `total` and `consumed`
(`consumed = total if consumed is None else consumed`). -/
def update_estimate (month year : ℕ) (total : ℚ) (consumed : Option ℚ)
    (update_if_exists : Bool) : List EstimateRow → List EstimateRow
  | [] => [⟨month, year, false, total, consumed.getD total⟩]
  | r :: rs =>
    if r.month = month ∧ r.year = year ∧ r.is_manually_input = false then
      (if update_if_exists then
        { r with total := total, consumed := consumed.getD total } :: rs
      else r :: rs)
    else r :: update_estimate month year total consumed update_if_exists rs

/-- `date -= relativedelta(months=+1)` restricted to the `(year, month)`
fields, which are the only ones the back-propagation loop reads. -/
def prevMonth : ℕ × ℕ → ℕ × ℕ
  | (y, m) => if m = 1 then (y - 1, 12) else (y, m - 1)

/-- Linear index of the month `m` of year `y` (months since year 0). -/
def monthIndex (y m : ℕ) : ℕ := y * 12 + (m - 1)

/-- The `while not (date.month == created.month and date.year == created.year)`
loop of `update_price_for_resource`: walking backward from `date`, create
(never overwriting) a full-month estimate at `monthly_cost` for every month
until the creation month `target` is reached.  The loop of the source
terminates by reaching `target`; the fuel is instantiated with the month gap,
which makes the recursion reach `target` exactly when the source loop does. -/
def backfill (monthly_cost : ℚ) (target : ℕ × ℕ) :
    ℕ → ℕ × ℕ → List EstimateRow → List EstimateRow
  | 0, _, s => s
  | fuel + 1, date, s =>
    if date = target then s
    else backfill monthly_cost target fuel (prevMonth date)
      (update_estimate date.2 date.1 monthly_cost none false s)

/-- Outcome of `CostTrackingRegister.get_resource_backend` +
`get_monthly_cost_estimate`: the exceptions caught by
`update_price_for_resource`. -/
inductive BackendFailure
  | serviceBackendNotImplemented
  | serviceBackendError
  | unexpectedError
deriving DecidableEq, Repr

/-- `PriceEstimate.update_price_for_resource`.  `backend_result` stands for
the `try` block (`float(...get_monthly_cost_estimate(resource))`); on any of
the three caught exception classes the function only logs (or silently
returns for `ServiceBackendNotImplemented`) and the `else` block is skipped,
so the stored rows are untouched. -/
def update_price_for_resource (backend_result : Except BackendFailure ℚ)
    (now created : DateTime) (back_propagate_price : Bool)
    (s : List EstimateRow) : List EstimateRow :=
  match backend_result with
  | .error _ => s
  | .ok monthly_cost =>
    let sim : ℚ := seconds_in_month created.year created.month
    if created.month = now.month ∧ created.year = now.year then
      update_estimate now.month now.year
        (prorata_cost monthly_cost sim (sim - secondsIntoMonth created))
        (some (prorata_cost monthly_cost sim
          ((epochSeconds now - epochSeconds created : ℤ) : ℚ)))
        true s
    else
      let s1 := update_estimate now.month now.year monthly_cost
        (some (prorata_cost monthly_cost sim (secondsIntoMonth now))) true s
      if back_propagate_price then
        let s2 := update_estimate created.month created.year
          (prorata_cost monthly_cost sim (sim - secondsIntoMonth created))
          none false s1
        backfill monthly_cost (created.year, created.month)
          (monthIndex now.year now.month - monthIndex created.year created.month)
          (prevMonth (now.year, now.month)) s2
      else s1

/-- Lookup in a JSON-object field (`d[k]` / `d.get(k)`), an association list
from consumable keys (abstract identifiers) to JSON numbers. -/
def lookupKV : List (ℕ × ℚ) → ℕ → Option ℚ
  | [], _ => none
  | p :: ps, k => if p.1 = k then some p.2 else lookupKV ps k

/-- `d.get(k, dflt)` on a JSON-object field. -/
def getKVD (l : List (ℕ × ℚ)) (k : ℕ) (dflt : ℚ) : ℚ := (lookupKV l k).getD dflt

/-- `d[k] = v` on a JSON-object field: replace the binding or append one. -/
def setKV : List (ℕ × ℚ) → ℕ → ℚ → List (ℕ × ℚ)
  | [], k, v => [(k, v)]
  | p :: ps, k, v => if p.1 = k then (k, v) :: ps else p :: setKV ps k v

/-- Python `==` on two JSON objects: equal key sets with equal values. -/
def dictEq (a b : List (ℕ × ℚ)) : Bool :=
  a.all (fun p => decide (lookupKV b p.1 = some p.2)) &&
    b.all (fun p => decide (lookupKV a p.1 = some p.2))

deriving instance DecidableEq for Except

/-- The `ConsumptionDetailUpdateError` exception class. -/
inductive ConsumptionDetailUpdateError
  | updateOutsideCurrentMonth
deriving DecidableEq, Repr

/-- The `KeyError` a Python dict raises on a missing key. -/
inductive KeyError
  | keyError (k : ℕ)
deriving DecidableEq, Repr

/-- A `ConsumptionDetails` record: resource consumption per month.  The
`price_estimate_month` / `price_estimate_year` fields inline the only
columns of the linked `price_estimate` row the methods read. -/
structure ConsumptionDetails where
  price_estimate_month : ℕ
  price_estimate_year : ℕ
  configuration : List (ℕ × ℚ)
  consumed_before_update : List (ℕ × ℚ)
  last_update_time : DateTime
deriving DecidableEq, Repr

/-- `ConsumptionDetails._get_minutes_from_last_update`: whole minutes from
the last update to `time`; `int(... / 60)` truncates toward zero, which is
`Int.div`. -/
def ConsumptionDetails._get_minutes_from_last_update
    (cd : ConsumptionDetails) (time : DateTime) : ℤ :=
  Int.tdiv (epochSeconds time - epochSeconds cd.last_update_time) 60

/-- The `for consumable, usage in self.configuration.items()` loop of
`update_configuration`: add `usage * minutes` to each tracked consumable's
accumulator. -/
def accrueConsumed (minutes : ℤ) (cfg acc : List (ℕ × ℚ)) : List (ℕ × ℚ) :=
  cfg.foldl (fun a p => setKV a p.1 (getKVD a p.1 0 + p.2 * (minutes : ℚ))) acc

/-- `ConsumptionDetails.update_configuration`: no-op on an equal
configuration; `ConsumptionDetailUpdateError` when `now.month` differs from
the linked estimate's month; otherwise accrue `usage * elapsed_minutes` for
every previously tracked consumable, store the new configuration and stamp
`last_update_time = now`. -/
def ConsumptionDetails.update_configuration (cd : ConsumptionDetails)
    (new_configuration : List (ℕ × ℚ)) (now : DateTime) :
    Except ConsumptionDetailUpdateError ConsumptionDetails :=
  if dictEq new_configuration cd.configuration then .ok cd
  else if now.month ≠ cd.price_estimate_month then
    .error .updateOutsideCurrentMonth
  else
    let minutes := cd._get_minutes_from_last_update now
    .ok { cd with
      configuration := new_configuration,
      consumed_before_update :=
        accrueConsumed minutes cd.configuration cd.consumed_before_update,
      last_update_time := now }

/-- `ConsumptionDetails._get_month_end`: the last second of the linked
estimate's month (`datetime.time.max` at second resolution). -/
def ConsumptionDetails._get_month_end (cd : ConsumptionDetails) : DateTime :=
  ⟨cd.price_estimate_year, cd.price_estimate_month,
    daysInMonth cd.price_estimate_year cd.price_estimate_month, 23, 59, 59⟩

/-- The derived property `ConsumptionDetails.consumed`: for each consumable
in the union of the keys of `configuration` and `consumed_before_update`,
`configuration.get(k, 0) * minutes_to_month_end + consumed_before_update[k]`
— the direct indexing raises `KeyError` when `k` has no accumulator entry. -/
def ConsumptionDetails.consumed (cd : ConsumptionDetails) :
    Except KeyError (List (ℕ × ℚ)) :=
  let minutes := cd._get_minutes_from_last_update cd._get_month_end
  let keys := (cd.configuration.map Prod.fst
    ++ cd.consumed_before_update.map Prod.fst).dedup
  keys.foldlM (fun acc k =>
    match lookupKV cd.consumed_before_update k with
    | none => .error (.keyError k)
    | some v => .ok (setKV acc k (getKVD cd.configuration k 0 * (minutes : ℚ) + v)))
    []

theorem lookupKV_setKV_self (l : List (ℕ × ℚ)) (k : ℕ) (v : ℚ) :
    lookupKV (setKV l k v) k = some v := by
  induction l with
  | nil => simp [setKV, lookupKV]
  | cons p ps ih =>
    by_cases h : p.1 = k
    · simp [setKV, h, lookupKV]
    · simp [setKV, h, lookupKV, ih]

theorem lookupKV_setKV_other (l : List (ℕ × ℚ)) (k k' : ℕ) (v : ℚ)
    (h : k' ≠ k) : lookupKV (setKV l k v) k' = lookupKV l k' := by
  have h' : ¬ k = k' := fun hh => h hh.symm
  induction l with
  | nil => simp [setKV, lookupKV, h']
  | cons p ps ih =>
    by_cases hp : p.1 = k
    · simp [setKV, hp, lookupKV, h']
    · simp [setKV, hp, lookupKV, ih]

theorem getKVD_setKV_other (l : List (ℕ × ℚ)) (k k' : ℕ) (v dflt : ℚ)
    (h : k' ≠ k) : getKVD (setKV l k v) k' dflt = getKVD l k' dflt := by
  simp [getKVD, lookupKV_setKV_other l k k' v h]

theorem accrueConsumed_lookup (m : ℤ) :
    ∀ (cfg acc : List (ℕ × ℚ)), (cfg.map Prod.fst).Nodup →
      (∀ k u, (k, u) ∈ cfg →
        lookupKV (accrueConsumed m cfg acc) k
          = some (getKVD acc k 0 + u * (m : ℚ))) ∧
      (∀ k, k ∉ cfg.map Prod.fst →
        lookupKV (accrueConsumed m cfg acc) k = lookupKV acc k) := by
  intro cfg
  induction cfg with
  | nil => intro acc _; exact ⟨by simp, fun k _ => by simp [accrueConsumed]⟩
  | cons p ps ih =>
    intro acc hnd
    have hstep : accrueConsumed m (p :: ps) acc
        = accrueConsumed m ps (setKV acc p.1 (getKVD acc p.1 0 + p.2 * (m : ℚ))) := by
      simp [accrueConsumed]
    have hps : (ps.map Prod.fst).Nodup := (List.nodup_cons.mp hnd).2
    have hhead : p.1 ∉ ps.map Prod.fst := (List.nodup_cons.mp hnd).1
    obtain ⟨ih1, ih2⟩ := ih (setKV acc p.1 (getKVD acc p.1 0 + p.2 * (m : ℚ))) hps
    constructor
    · intro k u hml
      rcases List.mem_cons.mp hml with heq | htl
      · have h1 : k = p.1 := by rw [← heq]
        have h2 : u = p.2 := by rw [← heq]
        subst h1
        subst h2
        rw [hstep, ih2 _ hhead, lookupKV_setKV_self]
      · have hk : k ∈ ps.map Prod.fst := List.mem_map.mpr ⟨(k, u), htl, rfl⟩
        have hkne : k ≠ p.1 := fun hh => hhead (hh ▸ hk)
        rw [hstep, ih1 k u htl, getKVD_setKV_other acc p.1 k _ 0 hkne]
    · intro k hk
      have hkne : k ≠ p.1 := fun hh => hk (by simp [hh])
      have hk' : k ∉ ps.map Prod.fst := fun hh => hk (by simp [hh])
      rw [hstep, ih2 k hk', lookupKV_setKV_other acc p.1 k _ hkne]

/-- C4: `update_configuration` with a genuinely different configuration, in
the linked estimate's month, adds `previous_rate * elapsed_whole_minutes`
(truncated toward zero) to each previously tracked consumable's accumulator,
leaves the other accumulator entries alone, installs the new configuration
and stamps `last_update_time = now`; with an equal configuration it changes
nothing. -/
theorem update_configuration_accrues (cd : ConsumptionDetails)
    (new_configuration : List (ℕ × ℚ)) (now : DateTime)
    (hnodup : (cd.configuration.map Prod.fst).Nodup)
    (hdiff : dictEq new_configuration cd.configuration = false)
    (hmonth : now.month = cd.price_estimate_month) :
    (∀ other, dictEq other cd.configuration = true →
      cd.update_configuration other now = .ok cd) ∧
    ∃ cd', cd.update_configuration new_configuration now = .ok cd' ∧
      cd'.configuration = new_configuration ∧
      cd'.last_update_time = now ∧
      (∀ k u, (k, u) ∈ cd.configuration →
        lookupKV cd'.consumed_before_update k
          = some (getKVD cd.consumed_before_update k 0
              + u * (cd._get_minutes_from_last_update now : ℚ))) ∧
      (∀ k, k ∉ cd.configuration.map Prod.fst →
        lookupKV cd'.consumed_before_update k
          = lookupKV cd.consumed_before_update k) := by
  constructor
  · intro other hother
    simp [ConsumptionDetails.update_configuration, hother]
  · have hres : cd.update_configuration new_configuration now
        = .ok { cd with
            configuration := new_configuration,
            consumed_before_update :=
              accrueConsumed (cd._get_minutes_from_last_update now)
                cd.configuration cd.consumed_before_update,
            last_update_time := now } := by
      simp [ConsumptionDetails.update_configuration, hdiff, hmonth]
    refine ⟨_, hres, rfl, rfl, ?_, ?_⟩
    · intro k u hmem
      exact (accrueConsumed_lookup _ cd.configuration
        cd.consumed_before_update hnodup).1 k u hmem
    · intro k hk
      exact (accrueConsumed_lookup _ cd.configuration
        cd.consumed_before_update hnodup).2 k hk

/-- C4's concrete scenario: `{ram: 2048}` (key 0 stands for `ram`) held for
exactly 60 minutes inside August 2016, then changed to `{ram: 1024}`. -/
def cdRam : ConsumptionDetails := ⟨8, 2016, [(0, 2048)], [], ⟨2016, 8, 8, 11, 0, 0⟩⟩

/-- The changed configuration of the C4 scenario. -/
def newRam : List (ℕ × ℚ) := [(0, 1024)]

/-- The update instant of the C4 scenario, 60 minutes after the last update. -/
def nowRam : DateTime := ⟨2016, 8, 8, 12, 0, 0⟩

set_option maxRecDepth 100000 in
/-- C4, witness: the accrual theorem applied to the 60-minute `ram` scenario;
the elapsed minutes evaluate to 60, so the `ram` accumulator receives
`2048 * 60`. -/
theorem update_configuration_accrues_witness :
    ((cdRam.configuration.map Prod.fst).Nodup ∧
        dictEq newRam cdRam.configuration = false ∧
        nowRam.month = cdRam.price_estimate_month ∧
        cdRam._get_minutes_from_last_update nowRam = 60 ∧
        (2048 * (60 : ℚ)) = 122880) ∧
      ((∀ other, dictEq other cdRam.configuration = true →
          cdRam.update_configuration other nowRam = .ok cdRam) ∧
        ∃ cd', cdRam.update_configuration newRam nowRam = .ok cd' ∧
          cd'.configuration = newRam ∧
          cd'.last_update_time = nowRam ∧
          (∀ k u, (k, u) ∈ cdRam.configuration →
            lookupKV cd'.consumed_before_update k
              = some (getKVD cdRam.consumed_before_update k 0
                  + u * (cdRam._get_minutes_from_last_update nowRam : ℚ))) ∧
          (∀ k, k ∉ cdRam.configuration.map Prod.fst →
            lookupKV cd'.consumed_before_update k
              = lookupKV cdRam.consumed_before_update k)) :=
  ⟨⟨by decide, by decide, by decide, by decide, by norm_num⟩,
    update_configuration_accrues cdRam newRam nowRam
      (by decide) (by decide) (by decide)⟩

/-- C5's out-of-period input: a `ConsumptionDetails` attached to the
August 2015 estimate, updated in August 2016 (same month number, other
year). -/
def cdAug2015 : ConsumptionDetails := ⟨8, 2015, [(0, 1)], [], ⟨2015, 8, 1, 0, 0, 0⟩⟩

/-- The update instant of the C5 input: August 5, 2016. -/
def nowAug2016 : DateTime := ⟨2016, 8, 5, 0, 0, 0⟩

set_option maxRecDepth 100000 in
/-- C5, counterexample: the guard of `update_configuration` compares only
`now.month` with the estimate's month number and never looks at the year, so
an update whose `(month, year)` period is NOT the current one (August 2015
vs. August 2016) is accepted instead of raising. -/
theorem update_configuration_year_ignored :
    ¬(nowAug2016.month = cdAug2015.price_estimate_month ∧
        nowAug2016.year = cdAug2015.price_estimate_year) ∧
      (cdAug2015.update_configuration [(0, 2)] nowAug2016).isOk = true := by
  with_unfolding_all decide

/-- C5, amended: on a changed configuration, `update_configuration` raises
`ConsumptionDetailUpdateError` exactly when `now.month` differs from the
estimate's month NUMBER (the year is never compared); in particular a call
inside the estimate's own (month, year) is accepted.  The raise happens
before any field is written, so an erroring call changes nothing. -/
theorem update_configuration_month_guard (cd : ConsumptionDetails)
    (new_configuration : List (ℕ × ℚ)) (now : DateTime)
    (hdiff : dictEq new_configuration cd.configuration = false) :
    ((cd.update_configuration new_configuration now).isOk = true
        ↔ now.month = cd.price_estimate_month) ∧
      (now.month ≠ cd.price_estimate_month →
        cd.update_configuration new_configuration now
          = .error .updateOutsideCurrentMonth) := by
  by_cases h : now.month = cd.price_estimate_month
  · constructor
    · simp [ConsumptionDetails.update_configuration, hdiff, h, Except.isOk,
        Except.toBool]
    · intro hne
      exact absurd h hne
  · constructor
    · simp [ConsumptionDetails.update_configuration, hdiff, h, Except.isOk,
        Except.toBool]
    · intro _
      simp [ConsumptionDetails.update_configuration, hdiff, h]

set_option maxRecDepth 100000 in
/-- C5, witness: the month-guard theorem applied to the August 2015 record
and an update instant inside August 2015 (accepted) — with the hypothesis
that the new configuration differs discharged concretely. -/
theorem update_configuration_month_guard_witness :
    dictEq [(0, 2)] cdAug2015.configuration = false ∧
      ((((cdAug2015.update_configuration [(0, 2)] ⟨2015, 8, 2, 0, 0, 0⟩).isOk = true)
          ↔ (⟨2015, 8, 2, 0, 0, 0⟩ : DateTime).month = cdAug2015.price_estimate_month) ∧
        ((⟨2015, 8, 2, 0, 0, 0⟩ : DateTime).month ≠ cdAug2015.price_estimate_month →
          cdAug2015.update_configuration [(0, 2)] ⟨2015, 8, 2, 0, 0, 0⟩
            = .error .updateOutsideCurrentMonth)) :=
  ⟨by with_unfolding_all decide,
    update_configuration_month_guard cdAug2015 [(0, 2)] ⟨2015, 8, 2, 0, 0, 0⟩
      (by with_unfolding_all decide)⟩

/-- A freshly created `ConsumptionDetails` of August 2016: empty
configuration, empty accumulator. -/
def cdFresh : ConsumptionDetails := ⟨8, 2016, [], [], ⟨2016, 8, 8, 11, 0, 0⟩⟩

/-- `cdFresh` right after its first configuration is stored: the `ram` key
(0) is tracked but has no accumulator entry. -/
def cdAfterFirst : ConsumptionDetails :=
  ⟨8, 2016, [(0, 2048)], [], ⟨2016, 8, 8, 12, 0, 0⟩⟩

set_option maxRecDepth 100000 in
/-- C10: the state in which `configuration` holds a key absent from
`consumed_before_update` is reachable (here by the very first
`update_configuration` on a fresh record with an empty accumulator), and
reading the derived `consumed` property there fails with `KeyError` for that
key instead of treating the missing accumulator entry as zero. -/
theorem consumed_keyerror_reachable :
    cdFresh.update_configuration [(0, 2048)] ⟨2016, 8, 8, 12, 0, 0⟩
        = .ok cdAfterFirst ∧
      cdAfterFirst.configuration = [(0, 2048)] ∧
      cdAfterFirst.consumed_before_update = [] ∧
      cdAfterFirst.consumed = .error (KeyError.keyError 0) := by
  with_unfolding_all decide

/-- C8, counterexample: as stated the claim fails.  For a backend monthly
cost that is not a whole number of hundredths (here 0.001), proration of the
full creation month yields `round(0.001, 2) = 0`, not the monthly cost. -/
theorem prorata_full_month_ne_monthly_cost :
    prorata_cost (1/1000) (seconds_in_month 2015 9) (seconds_in_month 2015 9) = 0 ∧
      (0 : ℚ) ≠ 1/1000 := by
  with_unfolding_all decide

/-- C8, amended: for a resource created exactly at the start of its creation
month, `prorata_cost` over the full month interval equals
`round2 monthly_cost`, hence equals the backend monthly cost exactly when
that cost is a whole number of hundredths (a 2-decimal money amount). -/
theorem prorata_full_month_eq_monthly_cost_of_cents (mc : ℚ) (y m : ℕ)
    (h : ∃ n : ℤ, mc = (n : ℚ) / 100) :
    prorata_cost mc (seconds_in_month y m) (seconds_in_month y m) = mc := by
  obtain ⟨n, rfl⟩ := h
  rw [prorata_cost_full_month, round2_hundredth]

/-- C8, witness: the amended theorem applied at `monthly_cost = 1.50` and the
30-day month September 2015. -/
theorem prorata_full_month_cents_witness :
    (∃ n : ℤ, (3/2 : ℚ) = (n : ℚ) / 100) ∧
      prorata_cost (3/2) (seconds_in_month 2015 9) (seconds_in_month 2015 9) = 3/2 :=
  ⟨⟨150, by norm_num⟩,
    prorata_full_month_eq_monthly_cost_of_cents (3/2) 2015 9 ⟨150, by norm_num⟩⟩

/-- C2, counterexample: a resource created at 00:00 on the 15th day of the
30-day month September 2015 with `monthly_cost = 300` gets a current-month
total of `round(300 * 16/30, 2) = 160.00`, not `150.00`: sixteen of the
thirty days (the 15th through the 30th) fall after the creation instant. -/
theorem update_price_day15_total_is_160 :
    (find_estimate
        (update_price_for_resource (.ok 300) ⟨2015, 9, 20, 10, 0, 0⟩
          ⟨2015, 9, 15, 0, 0, 0⟩ false [])
        9 2015).map EstimateRow.total = some 160 ∧
      (160 : ℚ) ≠ 150 := by
  with_unfolding_all decide

/-- C2, amended: with creation at 00:00 on the 16th day of September 2015
(so exactly 15 of the 30 days remain) and `monthly_cost = 300`,
`update_price_for_resource` writes the current month's estimate with
`total = round(300 * 15/30, 2) = 150.00`. -/
theorem update_price_day16_total_is_150 :
    (find_estimate
        (update_price_for_resource (.ok 300) ⟨2015, 9, 20, 10, 0, 0⟩
          ⟨2015, 9, 16, 0, 0, 0⟩ false [])
        9 2015).map EstimateRow.total = some (round2 (300 * (15/30 : ℚ))) ∧
      round2 (300 * (15/30 : ℚ)) = 150 := by
  with_unfolding_all decide

/-- C6: when the cost-tracking backend lookup or the monthly cost estimate
fails — `ServiceBackendNotImplemented`, `ServiceBackendError`, or any other
exception — `update_price_for_resource` returns without raising and without
creating or changing any stored estimate row of the resource. -/
theorem update_price_backend_failure_noop (f : BackendFailure)
    (now created : DateTime) (bp : Bool) (s : List EstimateRow) :
    update_price_for_resource (.error f) now created bp s = s := rfl

/-- The model class of a billable scope, in the fixed hierarchy
`Resource → ServiceProjectLink → {Service, Project} → Customer`
(plus `ServiceSettings`). -/
inductive ScopeType
  | resource
  | serviceProjectLink
  | service
  | serviceSettings
  | project
  | customer
deriving DecidableEq, Repr

/-- A polymorphic scope reference: `(content_type, object_id)`. -/
structure Scope where
  stype : ScopeType
  sid : ℕ
deriving DecidableEq, Repr

/-- `PriceEstimate.is_leaf_scope`: the scope's model is a payable resource. -/
def is_leaf_scope (s : Scope) : Prop := s.stype = ScopeType.resource

instance (s : Scope) : Decidable (is_leaf_scope s) :=
  inferInstanceAs (Decidable (s.stype = ScopeType.resource))

/-- A full `PriceEstimate` row.  `eid` is the primary key; `leafs` holds the
primary keys of the rows in the `leafs` many-to-many set. -/
structure Estimate where
  eid : ℕ
  scope : Scope
  month : ℕ
  year : ℕ
  is_manually_input : Bool
  is_visible : Bool
  total : ℚ
  consumed : ℚ
  leafs : List ℕ
deriving DecidableEq, Repr

/-- `PriceEstimate.is_leaf`: the scope is a payable resource. -/
def Estimate.is_leaf (e : Estimate) : Prop := is_leaf_scope e.scope

instance (e : Estimate) : Decidable e.is_leaf :=
  inferInstanceAs (Decidable (is_leaf_scope e.scope))

/-- The `PriceEstimate` table together with its primary-key sequence. -/
structure DB where
  rows : List Estimate
  nextId : ℕ
deriving DecidableEq, Repr

/-- `self.leafs.all()`: the rows whose primary key is in the M2M set. -/
def leafRowsOf (rows : List Estimate) (ids : List ℕ) : List Estimate :=
  rows.filter (fun r => decide (r.eid ∈ ids))

/-- `sum(e.total for e in leaf_estimates)`. -/
def sumTotal (rows : List Estimate) (ids : List ℕ) : ℚ :=
  ((leafRowsOf rows ids).map Estimate.total).sum

/-- `sum(e.consumed for e in leaf_estimates)`. -/
def sumConsumed (rows : List Estimate) (ids : List ℕ) : ℚ :=
  ((leafRowsOf rows ids).map Estimate.consumed).sum

/-- `save()` of a fetched row: replace the row with the same primary key. -/
def setRow (db : DB) (x : Estimate) : DB :=
  ⟨db.rows.map (fun r => if r.eid = x.eid then x else r), db.nextId⟩

/-- Fetch a row by primary key. -/
def findRow (db : DB) (i : ℕ) : Option Estimate :=
  db.rows.find? (fun r => decide (r.eid = i))

/-- `PriceEstimate.update_from_leaf` on the row with primary key `i`:
a leaf row returns unchanged; a non-leaf row stores the sums of its linked
leaf rows' totals into `total` / `consumed`. -/
def update_from_leaf (db : DB) (i : ℕ) : DB :=
  match findRow db i with
  | none => db
  | some p =>
    if p.is_leaf then db
    else setRow db { p with
      total := sumTotal db.rows p.leafs,
      consumed := sumConsumed db.rows p.leafs }

/-- `MultipleObjectsReturned`, raised by the `.get` inside `get_or_create`
when more than one row matches the lookup. -/
inductive AggError
  | multipleObjectsReturned
deriving DecidableEq, Repr

/-- The row `get_or_create` builds when nothing matches: lookup fields from
the call, every other field from the model defaults. -/
def newRowFor (db : DB) (parent : Scope) (month year : ℕ) : Estimate :=
  ⟨db.nextId, parent, month, year, false, true, 0, 0, []⟩

/-- The `get_or_create(object_id=…, content_type=…, month=…, year=…)` of
`update_ancestors`.  Note the lookup does NOT constrain
`is_manually_input` — unlike the `update_estimate` closure of
`update_price_for_resource` — so a manual row for the same
`(scope, month, year)` is found and returned. -/
def get_or_create_for_scope (db : DB) (parent : Scope) (month year : ℕ) :
    Except AggError (DB × Estimate) :=
  match db.rows.filter
      (fun r => decide (r.scope = parent ∧ r.month = month ∧ r.year = year)) with
  | [] =>
    .ok (⟨db.rows ++ [newRowFor db parent month year], db.nextId + 1⟩,
      newRowFor db parent month year)
  | [p] => .ok (db, p)
  | _ => .error .multipleObjectsReturned

/-- One iteration of the `for parent in self.scope.get_ancestors()` loop of
`update_ancestors`: get-or-create the ancestor's row for `self`'s period,
link `self` into its `leafs` when `self` is a leaf and not yet linked, and
re-sum it with `update_from_leaf`. -/
def process_ancestor (db : DB) (e : Estimate) (parent : Scope) :
    Except AggError DB := do
  let (db1, p) ← get_or_create_for_scope db parent e.month e.year
  let db2 := if e.is_leaf ∧ e.eid ∉ p.leafs
    then setRow db1 { p with leafs := p.leafs ++ [e.eid] } else db1
  .ok (update_from_leaf db2 p.eid)

/-- `PriceEstimate.update_ancestors`; `ancestors` stands for
`self.scope.get_ancestors()`. -/
def update_ancestors (db : DB) (e : Estimate) :
    List Scope → Except AggError DB
  | [] => .ok db
  | parent :: rest => do
    let db3 ← process_ancestor db e parent
    update_ancestors db3 e rest

/-- Two `PriceEstimate` rows for the same `(scope, month, year)` key (over
both values of `is_manually_input`). -/
abbrev sameKey (r1 r2 : Estimate) : Prop :=
  r1.scope = r2.scope ∧ r1.month = r2.month ∧ r1.year = r2.year

/-- Well-formedness: primary keys are unique. -/
abbrev WfIds (db : DB) : Prop := (db.rows.map Estimate.eid).Nodup

/-- Well-formedness: the primary-key sequence is ahead of every stored row. -/
abbrev WfFresh (db : DB) : Prop := ∀ r ∈ db.rows, r.eid < db.nextId

/-- Well-formedness: every entry of a `leafs` set references an existing row
whose scope is a payable resource (the only rows `update_ancestors` ever
links). -/
abbrev WfLeafRefs (db : DB) : Prop :=
  ∀ p ∈ db.rows, ∀ l ∈ p.leafs, ∃ r ∈ db.rows, r.eid = l ∧ r.is_leaf

/-- Well-formedness: at most one row per `(scope, month, year)` key.  (The
schema's uniqueness constraint additionally keys on `is_manually_input`;
this stronger form is what makes the unfiltered `get_or_create` of
`update_ancestors` well defined, see the C9 analysis.) -/
abbrev WfKeys (db : DB) : Prop := db.rows.Pairwise (fun r1 r2 => ¬ sameKey r1 r2)

/-- All well-formedness conditions together. -/
abbrev Wf (db : DB) : Prop := WfIds db ∧ WfFresh db ∧ WfLeafRefs db ∧ WfKeys db

/-- The roll-up invariant of one non-leaf row: its `total` and `consumed`
are the sums over its linked leaf rows. -/
abbrev rollupInv (rows : List Estimate) (p : Estimate) : Prop :=
  p.total = sumTotal rows p.leafs ∧ p.consumed = sumConsumed rows p.leafs

/-- Pre-state of a propagation triggered by the leaf estimate `e`: every
non-leaf row either already satisfies the roll-up invariant or is an
ancestor row for `e`'s period (the rows whose sums the leaf's change just
invalidated — `update_ancestors` recomputes exactly those). -/
abbrev PreInv (e : Estimate) (ancestors : List Scope) (db : DB) : Prop :=
  ∀ p ∈ db.rows, ¬ p.is_leaf →
    (rollupInv db.rows p ∨
      (p.scope ∈ ancestors ∧ p.month = e.month ∧ p.year = e.year))

theorem sameKey_symm {r1 r2 : Estimate} (h : sameKey r1 r2) : sameKey r2 r1 :=
  ⟨h.1.symm, h.2.1.symm, h.2.2.symm⟩

theorem eq_of_pairwise_not_sameKey :
    ∀ {l : List Estimate}, l.Pairwise (fun a b => ¬ sameKey a b) →
      ∀ {r1 r2 : Estimate}, r1 ∈ l → r2 ∈ l → sameKey r1 r2 → r1 = r2 := by
  intro l hp
  induction hp with
  | nil => intro r1 r2 h1 _ _; simp at h1
  | cons hhead _ ih =>
    intro r1 r2 h1 h2 hk
    rcases List.mem_cons.mp h1 with rfl | h1t
    · rcases List.mem_cons.mp h2 with rfl | h2t
      · rfl
      · exact absurd hk (hhead r2 h2t)
    · rcases List.mem_cons.mp h2 with rfl | h2t
      · exact absurd (sameKey_symm hk) (hhead r1 h1t)
      · exact ih h1t h2t hk

theorem eq_of_eid_eq {db : DB} (hids : WfIds db) {r1 r2 : Estimate}
    (h1 : r1 ∈ db.rows) (h2 : r2 ∈ db.rows) (he : r1.eid = r2.eid) : r1 = r2 :=
  List.inj_on_of_nodup_map hids h1 h2 he

theorem setRow_map_eid (db : DB) (x : Estimate) :
    (setRow db x).rows.map Estimate.eid = db.rows.map Estimate.eid := by
  simp only [setRow, List.map_map]
  apply List.map_congr_left
  intro r _
  by_cases h : r.eid = x.eid <;> simp [h]

theorem mem_setRow_of_ne {db : DB} {x r : Estimate} (hr : r ∈ db.rows)
    (hne : r.eid ≠ x.eid) : r ∈ (setRow db x).rows :=
  List.mem_map.mpr ⟨r, hr, by simp [hne]⟩

theorem mem_setRow_self {db : DB} {x : Estimate}
    (h : ∃ r ∈ db.rows, r.eid = x.eid) : x ∈ (setRow db x).rows := by
  obtain ⟨r, hr, he⟩ := h
  exact List.mem_map.mpr ⟨r, hr, by simp [he]⟩

theorem mem_setRow_cases {db : DB} {x r' : Estimate}
    (h : r' ∈ (setRow db x).rows) :
    r' = x ∨ (r' ∈ db.rows ∧ r'.eid ≠ x.eid) := by
  obtain ⟨r, hr, he⟩ := List.mem_map.mp h
  by_cases hc : r.eid = x.eid
  · left
    simp only [hc, if_pos rfl] at he
    exact he.symm
  · right
    rw [if_neg hc] at he
    exact ⟨he ▸ hr, he ▸ hc⟩

theorem leafRowsOf_map_replace (l : List Estimate) (x : Estimate)
    (ids : List ℕ) (hx : x.eid ∉ ids) :
    leafRowsOf (l.map (fun r => if r.eid = x.eid then x else r)) ids
      = leafRowsOf l ids := by
  induction l with
  | nil => rfl
  | cons r t ih =>
    by_cases hc : r.eid = x.eid
    · have hr : r.eid ∉ ids := hc ▸ hx
      simp only [List.map_cons, leafRowsOf, List.filter_cons, if_pos hc] at *
      simp [hx, hr, ih]
    · simp only [List.map_cons, leafRowsOf, List.filter_cons, if_neg hc] at *
      by_cases hr : r.eid ∈ ids <;> simp [hr, ih]

theorem leafRowsOf_setRow (db : DB) (x : Estimate) (ids : List ℕ)
    (hx : x.eid ∉ ids) :
    leafRowsOf (setRow db x).rows ids = leafRowsOf db.rows ids :=
  leafRowsOf_map_replace db.rows x ids hx

theorem leafRowsOf_append_fresh (l : List Estimate) (x : Estimate)
    (ids : List ℕ) (hx : x.eid ∉ ids) :
    leafRowsOf (l ++ [x]) ids = leafRowsOf l ids := by
  simp [leafRowsOf, List.filter_append, hx]

theorem fresh_not_in_leafs {db : DB} (hfresh : WfFresh db)
    (hrefs : WfLeafRefs db) {p : Estimate} (hp : p ∈ db.rows) :
    db.nextId ∉ p.leafs := by
  intro hmem
  obtain ⟨r, hr, he, _⟩ := hrefs p hp db.nextId hmem
  exact absurd (he ▸ hfresh r hr) (lt_irrefl _)

theorem nonleaf_eid_not_in_leafs {db : DB} (hids : WfIds db)
    (hrefs : WfLeafRefs db) {x : Estimate} (hx : x ∈ db.rows)
    (hnx : ¬ x.is_leaf) {p : Estimate} (hp : p ∈ db.rows) :
    x.eid ∉ p.leafs := by
  intro hmem
  obtain ⟨r, hr, he, hrl⟩ := hrefs p hp x.eid hmem
  exact hnx ((eq_of_eid_eq hids hr hx he) ▸ hrl)

theorem find_eid_of_mem :
    ∀ {l : List Estimate}, (l.map Estimate.eid).Nodup →
      ∀ {p : Estimate}, p ∈ l →
        l.find? (fun r => decide (r.eid = p.eid)) = some p := by
  intro l
  induction l with
  | nil => intro _ p hp; simp at hp
  | cons r t ih =>
    intro hnd p hp
    rcases List.mem_cons.mp hp with rfl | hpt
    · simp
    · have hne : ¬ r.eid = p.eid := by
        intro he
        exact (List.nodup_cons.mp hnd).1
          (he ▸ List.mem_map.mpr ⟨p, hpt, rfl⟩)
      simp only [List.find?, decide_eq_false hne]
      exact ih (List.nodup_cons.mp hnd).2 hpt

theorem findRow_eq_some {db : DB} (hids : WfIds db) {p : Estimate}
    (hp : p ∈ db.rows) : findRow db p.eid = some p :=
  find_eid_of_mem hids hp

/-- Behaviour of the unfiltered `get_or_create` of `update_ancestors` on a
well-keyed table: it returns the unique existing row for
`(parent, month, year)` — whatever its `is_manually_input` flag — or appends
a fresh default row. -/
theorem get_or_create_spec (db : DB) (parent : Scope) (month year : ℕ)
    (hkeys : WfKeys db) :
    ∃ db1 p, get_or_create_for_scope db parent month year = .ok (db1, p) ∧
      p.scope = parent ∧ p.month = month ∧ p.year = year ∧
      ((db1 = db ∧ p ∈ db.rows) ∨
        (p = newRowFor db parent month year ∧
          db1.rows = db.rows ++ [p] ∧ db1.nextId = db.nextId + 1 ∧
          ∀ r ∈ db.rows, ¬ sameKey r p)) := by
  rcases hf : db.rows.filter
      (fun r => decide (r.scope = parent ∧ r.month = month ∧ r.year = year)) with
    _ | ⟨p, _ | ⟨q, t⟩⟩
  · refine ⟨⟨db.rows ++ [newRowFor db parent month year], db.nextId + 1⟩,
      newRowFor db parent month year, ?_, rfl, rfl, rfl,
      .inr ⟨rfl, rfl, rfl, ?_⟩⟩
    · simp only [get_or_create_for_scope]
      rw [hf]
    · intro r hr hk
      have : r ∈ db.rows.filter
          (fun r => decide (r.scope = parent ∧ r.month = month ∧ r.year = year)) := by
        simp only [List.mem_filter, decide_eq_true_eq]
        exact ⟨hr, hk.1, hk.2.1, hk.2.2⟩
      rw [hf] at this
      simp at this
  · have hp : p ∈ db.rows.filter
        (fun r => decide (r.scope = parent ∧ r.month = month ∧ r.year = year)) := by
      rw [hf]; exact List.mem_singleton.mpr rfl
    have hp' := List.mem_filter.mp hp
    have hk := of_decide_eq_true hp'.2
    refine ⟨_, _, ?_, hk.1, hk.2.1, hk.2.2, .inl ⟨rfl, hp'.1⟩⟩
    simp only [get_or_create_for_scope]
    rw [hf]
  · exfalso
    have hpw : (db.rows.filter
        (fun r => decide (r.scope = parent ∧ r.month = month ∧ r.year = year))).Pairwise
          (fun r1 r2 => ¬ sameKey r1 r2) := hkeys.filter _
    rw [hf] at hpw
    have hpq : ¬ sameKey p q := (List.pairwise_cons.mp hpw).1 q (by simp)
    have hp : p ∈ db.rows.filter
        (fun r => decide (r.scope = parent ∧ r.month = month ∧ r.year = year)) := by
      rw [hf]; simp
    have hq : q ∈ db.rows.filter
        (fun r => decide (r.scope = parent ∧ r.month = month ∧ r.year = year)) := by
      rw [hf]; simp
    have hkp := of_decide_eq_true (List.mem_filter.mp hp).2
    have hkq := of_decide_eq_true (List.mem_filter.mp hq).2
    exact hpq ⟨hkp.1.trans hkq.1.symm, hkp.2.1.trans hkq.2.1.symm,
      hkp.2.2.trans hkq.2.2.symm⟩

theorem sameKey_trans {r1 r2 r3 : Estimate} (h1 : sameKey r1 r2)
    (h2 : sameKey r2 r3) : sameKey r1 r3 :=
  ⟨h1.1.trans h2.1, h1.2.1.trans h2.2.1, h1.2.2.trans h2.2.2⟩

/-- The append performed by `get_or_create` when no row matches preserves
well-formedness. -/
theorem wf_append_new (db : DB) (parent : Scope) (month year : ℕ)
    (hwf : Wf db)
    (hnokey : ∀ r ∈ db.rows, ¬ sameKey r (newRowFor db parent month year)) :
    Wf ⟨db.rows ++ [newRowFor db parent month year], db.nextId + 1⟩ := by
  obtain ⟨hids, hfresh, hrefs, hkeys⟩ := hwf
  refine ⟨?_, ?_, ?_, ?_⟩
  · simp only [WfIds, List.map_append, List.map_cons, List.map_nil]
    rw [List.nodup_append]
    refine ⟨hids, List.nodup_singleton _, ?_⟩
    intro i hi hi'
    simp only [newRowFor, List.mem_singleton] at hi'
    obtain ⟨r, hr, hre⟩ := List.mem_map.mp hi
    exact absurd (hre ▸ hfresh r hr) (by simp [hi'])
  · intro r hr
    rcases List.mem_append.mp hr with h | h
    · exact Nat.lt_succ_of_lt (hfresh r h)
    · simp only [List.mem_singleton] at h
      simp [h, newRowFor]
  · intro p hp l hl
    rcases List.mem_append.mp hp with h | h
    · obtain ⟨r, hr, hre, hrl⟩ := hrefs p h l hl
      exact ⟨r, List.mem_append.mpr (.inl hr), hre, hrl⟩
    · simp only [List.mem_singleton] at h
      subst h
      simp [newRowFor] at hl
  · rw [WfKeys, List.pairwise_append]
    refine ⟨hkeys, List.pairwise_singleton _ _, ?_⟩
    intro r hr r' hr'
    simp only [List.mem_singleton] at hr'
    exact hr' ▸ hnokey r hr

/-- A `save()` that keeps the primary key, the `(scope, month, year)` key
and the well-formedness of the `leafs` references preserves
well-formedness. -/
theorem wf_setRow (db : DB) {p0 x : Estimate} (hwf : Wf db)
    (hp0 : p0 ∈ db.rows) (hnp0 : ¬ p0.is_leaf) (heid : x.eid = p0.eid)
    (hkey : sameKey x p0)
    (hleafs : ∀ l ∈ x.leafs, ∃ r ∈ db.rows, r.eid = l ∧ r.is_leaf) :
    Wf (setRow db x) := by
  obtain ⟨hids, hfresh, hrefs, hkeys⟩ := hwf
  have hsurv : ∀ r ∈ db.rows, r.is_leaf → r ∈ (setRow db x).rows := by
    intro r hr hrl
    refine mem_setRow_of_ne hr ?_
    intro hre
    exact hnp0 (eq_of_eid_eq hids hr hp0 (hre.trans heid) ▸ hrl)
  refine ⟨?_, ?_, ?_, ?_⟩
  · show ((setRow db x).rows.map Estimate.eid).Nodup
    rw [setRow_map_eid db x]
    exact hids
  · intro r hr
    rcases mem_setRow_cases hr with rfl | ⟨hr', _⟩
    · exact heid ▸ hfresh p0 hp0
    · exact hfresh r hr'
  · intro p hp l hl
    rcases mem_setRow_cases hp with rfl | ⟨hp', _⟩
    · obtain ⟨r, hr, hre, hrl⟩ := hleafs l hl
      exact ⟨r, hsurv r hr hrl, hre, hrl⟩
    · obtain ⟨r, hr, hre, hrl⟩ := hrefs p hp' l hl
      exact ⟨r, hsurv r hr hrl, hre, hrl⟩
  · have hg : ∀ r ∈ db.rows,
        sameKey (if r.eid = x.eid then x else r) r := by
      intro r hr
      by_cases hc : r.eid = x.eid
      · rw [if_pos hc]
        have hr0 : r = p0 := eq_of_eid_eq hids hr hp0 (hc.trans heid)
        rw [hr0]
        exact hkey
      · rw [if_neg hc]
        exact ⟨rfl, rfl, rfl⟩
    refine List.pairwise_map.mpr ?_
    refine List.Pairwise.imp_of_mem ?_ hkeys
    intro r1 r2 h1 h2 hno hk
    exact hno (sameKey_trans (sameKey_symm (hg r1 h1))
      (sameKey_trans hk (hg r2 h2)))

/-- Effect of `parent_estimate.leafs.add(self)`: well-formedness is kept,
leaf rows survive unchanged, every new or changed row carries `p`'s
`(scope, month, year)` key, and the leaf-row sums of every id set not
containing `p.eid` are untouched. -/
theorem link_leaf_spec (db1 : DB) (e p : Estimate) (hwf1 : Wf db1)
    (he1 : e ∈ db1.rows) (hl : e.is_leaf) (hp1 : p ∈ db1.rows)
    (hnp : ¬ p.is_leaf) :
    Wf (setRow db1 { p with leafs := p.leafs ++ [e.eid] }) ∧
      { p with leafs := p.leafs ++ [e.eid] }
        ∈ (setRow db1 { p with leafs := p.leafs ++ [e.eid] }).rows ∧
      (∀ r ∈ db1.rows, r.is_leaf →
        r ∈ (setRow db1 { p with leafs := p.leafs ++ [e.eid] }).rows) ∧
      (∀ r' ∈ (setRow db1 { p with leafs := p.leafs ++ [e.eid] }).rows,
        r' ∈ db1.rows ∨ sameKey r' p) ∧
      (∀ ids : List ℕ, p.eid ∉ ids →
        leafRowsOf (setRow db1 { p with leafs := p.leafs ++ [e.eid] }).rows ids
          = leafRowsOf db1.rows ids) := by
  obtain ⟨hids, hfresh, hrefs, hkeys⟩ := hwf1
  have hleafs : ∀ l ∈ p.leafs ++ [e.eid],
      ∃ r ∈ db1.rows, r.eid = l ∧ r.is_leaf := by
    intro l hml
    rcases List.mem_append.mp hml with h | h
    · exact hrefs p hp1 l h
    · simp only [List.mem_singleton] at h
      exact ⟨e, he1, h.symm, hl⟩
  refine ⟨?_, ?_, ?_, ?_, ?_⟩
  · exact wf_setRow db1 ⟨hids, hfresh, hrefs, hkeys⟩ hp1 hnp rfl
      ⟨rfl, rfl, rfl⟩ hleafs
  · exact mem_setRow_self ⟨p, hp1, rfl⟩
  · intro r hr hrl
    refine mem_setRow_of_ne hr ?_
    intro hre
    exact hnp (eq_of_eid_eq hids hr hp1 hre ▸ hrl)
  · intro r' hr'
    rcases mem_setRow_cases hr' with rfl | ⟨h, _⟩
    · exact .inr ⟨rfl, rfl, rfl⟩
    · exact .inl h
  · intro ids hni
    exact leafRowsOf_setRow db1 _ ids hni

/-- Effect of `update_from_leaf` on the non-leaf row `p2 = findRow db2 i`:
well-formedness is kept, leaf rows survive unchanged, every new or changed
row carries `p2`'s key, the roll-up invariant of untouched non-leaf rows is
kept, and every row with `p2`'s key satisfies the roll-up invariant
afterwards. -/
theorem update_from_leaf_spec (db2 : DB) (i : ℕ) (p2 : Estimate)
    (hwf2 : Wf db2) (hp2 : p2 ∈ db2.rows) (hi : p2.eid = i)
    (hnp2 : ¬ p2.is_leaf) :
    Wf (update_from_leaf db2 i) ∧
      (∀ r ∈ db2.rows, r.is_leaf → r ∈ (update_from_leaf db2 i).rows) ∧
      (∀ r' ∈ (update_from_leaf db2 i).rows, r' ∈ db2.rows ∨ sameKey r' p2) ∧
      (∀ r, r ∈ db2.rows → r ∈ (update_from_leaf db2 i).rows → ¬ r.is_leaf →
        rollupInv db2.rows r → rollupInv (update_from_leaf db2 i).rows r) ∧
      (∀ r' ∈ (update_from_leaf db2 i).rows, sameKey r' p2 →
        rollupInv (update_from_leaf db2 i).rows r') := by
  obtain ⟨hids, hfresh, hrefs, hkeys⟩ := hwf2
  have hfind : findRow db2 i = some p2 := hi ▸ findRow_eq_some hids hp2
  have heq : update_from_leaf db2 i
      = setRow db2 { p2 with
          total := sumTotal db2.rows p2.leafs,
          consumed := sumConsumed db2.rows p2.leafs } := by
    simp only [update_from_leaf, hfind, if_neg hnp2]
  have hxid : ({ p2 with
      total := sumTotal db2.rows p2.leafs,
      consumed := sumConsumed db2.rows p2.leafs } : Estimate).eid = p2.eid := rfl
  have hnotin : ∀ r ∈ db2.rows, p2.eid ∉ r.leafs := fun r hr =>
    nonleaf_eid_not_in_leafs hids hrefs hp2 hnp2 hr
  have hpres : ∀ ids : List ℕ, p2.eid ∉ ids →
      leafRowsOf (update_from_leaf db2 i).rows ids = leafRowsOf db2.rows ids := by
    intro ids hni
    rw [heq]
    exact leafRowsOf_setRow db2 _ ids hni
  have hwf3 : Wf (update_from_leaf db2 i) := by
    rw [heq]
    exact wf_setRow db2 ⟨hids, hfresh, hrefs, hkeys⟩ hp2 hnp2 rfl
      ⟨rfl, rfl, rfl⟩ (fun l hml => hrefs p2 hp2 l hml)
  have hxmem : ({ p2 with
      total := sumTotal db2.rows p2.leafs,
      consumed := sumConsumed db2.rows p2.leafs } : Estimate)
        ∈ (update_from_leaf db2 i).rows := by
    rw [heq]
    exact mem_setRow_self ⟨p2, hp2, rfl⟩
  have hxinv : rollupInv (update_from_leaf db2 i).rows
      { p2 with
        total := sumTotal db2.rows p2.leafs,
        consumed := sumConsumed db2.rows p2.leafs } := by
    constructor
    · show sumTotal db2.rows p2.leafs = sumTotal (update_from_leaf db2 i).rows p2.leafs
      unfold sumTotal
      rw [hpres p2.leafs (hnotin p2 hp2)]
    · show sumConsumed db2.rows p2.leafs
        = sumConsumed (update_from_leaf db2 i).rows p2.leafs
      unfold sumConsumed
      rw [hpres p2.leafs (hnotin p2 hp2)]
  refine ⟨hwf3, ?_, ?_, ?_, ?_⟩
  · intro r hr hrl
    rw [heq]
    refine mem_setRow_of_ne hr ?_
    intro hre
    exact hnp2 (eq_of_eid_eq hids hr hp2 (hre.trans hxid) ▸ hrl)
  · intro r' hr'
    rw [heq] at hr'
    rcases mem_setRow_cases hr' with rfl | ⟨h, _⟩
    · exact .inr ⟨rfl, rfl, rfl⟩
    · exact .inl h
  · intro r hr hr3 hnr hinv
    have hni : p2.eid ∉ r.leafs := hnotin r hr
    constructor
    · show r.total = sumTotal (update_from_leaf db2 i).rows r.leafs
      unfold sumTotal
      rw [hpres r.leafs hni]
      exact hinv.1
    · show r.consumed = sumConsumed (update_from_leaf db2 i).rows r.leafs
      unfold sumConsumed
      rw [hpres r.leafs hni]
      exact hinv.2
  · intro r' hr' hk
    have hxkey : sameKey
        ({ p2 with
          total := sumTotal db2.rows p2.leafs,
          consumed := sumConsumed db2.rows p2.leafs } : Estimate) p2 :=
      ⟨rfl, rfl, rfl⟩
    have : r' = { p2 with
        total := sumTotal db2.rows p2.leafs,
        consumed := sumConsumed db2.rows p2.leafs } :=
      eq_of_pairwise_not_sameKey hwf3.2.2.2 hr' hxmem
        (sameKey_trans hk (sameKey_symm hxkey))
    rw [this]
    exact hxinv

theorem sameKey_refl (r : Estimate) : sameKey r r := ⟨rfl, rfl, rfl⟩

/-- Assembly of the per-ancestor facts: given the interface facts of the
get-or-create step (`db` → `db1`) and of the optional leaf-linking step
(`db1` → `db2`), the final `update_from_leaf` yields a database satisfying
the per-step contract of the propagation loop. -/
theorem process_tail_spec (db db1 db2 : DB) (e p p2 : Estimate) (a : Scope)
    (hpa : p.scope = a) (hpm : p.month = e.month) (hpy : p.year = e.year)
    (hl : e.is_leaf)
    (hmem01 : ∀ r ∈ db.rows, r ∈ db1.rows)
    (hchar01 : ∀ r' ∈ db1.rows, r' ∈ db.rows ∨ r' = p)
    (hpres01 : ∀ r ∈ db.rows, ¬ r.is_leaf →
      rollupInv db.rows r → rollupInv db1.rows r)
    (hids1 : WfIds db1) (hp1 : p ∈ db1.rows)
    (hwf2 : Wf db2) (he2 : e ∈ db2.rows) (hp2 : p2 ∈ db2.rows)
    (hp2eid : p2.eid = p.eid) (hp2key : sameKey p2 p) (hnp2 : ¬ p2.is_leaf)
    (hchar12 : ∀ r' ∈ db2.rows, r' ∈ db1.rows ∨ sameKey r' p)
    (hmem12 : ∀ r ∈ db1.rows, r.eid ≠ p.eid → r ∈ db2.rows)
    (hpres12 : ∀ r, r ∈ db1.rows → r ∈ db2.rows → ¬ r.is_leaf →
      rollupInv db1.rows r → rollupInv db2.rows r) :
    Wf (update_from_leaf db2 p.eid) ∧
      e ∈ (update_from_leaf db2 p.eid).rows ∧
      (∀ r' ∈ (update_from_leaf db2 p.eid).rows, r' ∈ db.rows ∨
        (r'.scope = a ∧ r'.month = e.month ∧ r'.year = e.year)) ∧
      (∀ r, r ∈ db.rows → r ∈ (update_from_leaf db2 p.eid).rows →
        ¬ r.is_leaf → rollupInv db.rows r →
          rollupInv (update_from_leaf db2 p.eid).rows r) ∧
      (∀ r' ∈ (update_from_leaf db2 p.eid).rows,
        r'.scope = a ∧ r'.month = e.month ∧ r'.year = e.year →
          rollupInv (update_from_leaf db2 p.eid).rows r') := by
  obtain ⟨hwf3, hsurv3, hchar3, hpres3, hkeyinv3⟩ :=
    update_from_leaf_spec db2 p.eid p2 hwf2 hp2 hp2eid hnp2
  have keyfromp : ∀ r' : Estimate, sameKey r' p →
      r'.scope = a ∧ r'.month = e.month ∧ r'.year = e.year := fun r' hk =>
    ⟨hk.1.trans hpa, hk.2.1.trans hpm, hk.2.2.trans hpy⟩
  have ptokey : ∀ r' : Estimate,
      r'.scope = a ∧ r'.month = e.month ∧ r'.year = e.year →
        sameKey r' p := fun r' hk =>
    ⟨hk.1.trans hpa.symm, hk.2.1.trans hpm.symm, hk.2.2.trans hpy.symm⟩
  refine ⟨hwf3, hsurv3 e he2 hl, ?_, ?_, ?_⟩
  · intro r' hr'
    rcases hchar3 r' hr' with h2 | hk
    · rcases hchar12 r' h2 with h1 | hk
      · rcases hchar01 r' h1 with h0 | rfl
        · exact .inl h0
        · exact .inr ⟨hpa, hpm, hpy⟩
      · exact .inr (keyfromp r' hk)
    · exact .inr (keyfromp r' (sameKey_trans hk hp2key))
  · intro r hr0 hr3 hnr hinv
    by_cases hkr : sameKey r p
    · exact hkeyinv3 r hr3 (sameKey_trans hkr (sameKey_symm hp2key))
    · have hr1 : r ∈ db1.rows := hmem01 r hr0
      have hne : r.eid ≠ p.eid := by
        intro he'
        refine hkr ?_
        rw [eq_of_eid_eq hids1 hr1 hp1 he']
        exact sameKey_refl p
      have hr2 : r ∈ db2.rows := hmem12 r hr1 hne
      exact hpres3 r hr2 hr3 hnr
        (hpres12 r hr1 hr2 hnr (hpres01 r hr0 hnr hinv))
  · intro r' hr' hk
    exact hkeyinv3 r' hr'
      (sameKey_trans (ptokey r' hk) (sameKey_symm hp2key))

/-- Contract of one iteration of the `update_ancestors` loop on a
well-formed table: it succeeds, keeps well-formedness and the triggering
leaf row, only creates or changes rows keyed to the processed ancestor and
the triggering period, keeps the roll-up invariant of every untouched
non-leaf row, and establishes it for the ancestor's row. -/
theorem process_ancestor_spec (db : DB) (e : Estimate) (a : Scope)
    (hwf : Wf db) (he : e ∈ db.rows) (hl : e.is_leaf)
    (hna : ¬ is_leaf_scope a) :
    ∃ db3, process_ancestor db e a = .ok db3 ∧ Wf db3 ∧ e ∈ db3.rows ∧
      (∀ r' ∈ db3.rows, r' ∈ db.rows ∨
        (r'.scope = a ∧ r'.month = e.month ∧ r'.year = e.year)) ∧
      (∀ r, r ∈ db.rows → r ∈ db3.rows → ¬ r.is_leaf →
        rollupInv db.rows r → rollupInv db3.rows r) ∧
      (∀ r' ∈ db3.rows,
        r'.scope = a ∧ r'.month = e.month ∧ r'.year = e.year →
          rollupInv db3.rows r') := by
  obtain ⟨db1, p, hgoc, hpa, hpm, hpy, hcase⟩ :=
    get_or_create_spec db a e.month e.year hwf.2.2.2
  have hnp : ¬ p.is_leaf := by
    show ¬ is_leaf_scope p.scope
    rw [hpa]
    exact hna
  have hfacts : Wf db1 ∧ (∀ r ∈ db.rows, r ∈ db1.rows) ∧
      (∀ r' ∈ db1.rows, r' ∈ db.rows ∨ r' = p) ∧ p ∈ db1.rows ∧
      (∀ r ∈ db.rows, ¬ r.is_leaf →
        rollupInv db.rows r → rollupInv db1.rows r) := by
    obtain ⟨hids, hfresh, hrefs, hkeys⟩ := hwf
    rcases hcase with ⟨rfl, hpmem⟩ | ⟨rfl, hrows1, hnext1, hnokey⟩
    · exact ⟨⟨hids, hfresh, hrefs, hkeys⟩, fun r hr => hr,
        fun r' h => .inl h, hpmem, fun r _ _ hinv => hinv⟩
    · obtain ⟨rows1, nid1⟩ := db1
      dsimp only at hrows1 hnext1
      subst hrows1
      subst hnext1
      refine ⟨wf_append_new db a e.month e.year
        ⟨hids, hfresh, hrefs, hkeys⟩ hnokey, ?_, ?_, ?_, ?_⟩
      · intro r hr
        exact List.mem_append.mpr (.inl hr)
      · intro r' h
        rcases List.mem_append.mp h with h | h
        · exact .inl h
        · simp only [List.mem_singleton] at h
          exact .inr h
      · exact List.mem_append.mpr (.inr (by simp))
      · intro r hr hnr hinv
        have hni : (newRowFor db a e.month e.year).eid ∉ r.leafs :=
          fresh_not_in_leafs hfresh hrefs hr
        constructor
        · show r.total = sumTotal
            (db.rows ++ [newRowFor db a e.month e.year]) r.leafs
          unfold sumTotal
          rw [leafRowsOf_append_fresh db.rows _ r.leafs hni]
          exact hinv.1
        · show r.consumed = sumConsumed
            (db.rows ++ [newRowFor db a e.month e.year]) r.leafs
          unfold sumConsumed
          rw [leafRowsOf_append_fresh db.rows _ r.leafs hni]
          exact hinv.2
  obtain ⟨hwf1, hmem01, hchar01, hp1, hpres01⟩ := hfacts
  have he1 : e ∈ db1.rows := hmem01 e he
  have heid_ne : e.eid ≠ p.eid := by
    intro h
    exact hnp (eq_of_eid_eq hwf1.1 hp1 he1 h.symm ▸ hl)
  by_cases hlink : e.eid ∈ p.leafs
  · -- already linked: the conditional of the loop body is skipped
    have hcond : ¬ (e.is_leaf ∧ e.eid ∉ p.leafs) := fun h => h.2 hlink
    have hproc : process_ancestor db e a
        = .ok (update_from_leaf db1 p.eid) := by
      simp only [process_ancestor, hgoc, Except.bind, bind, if_neg hcond]
    obtain ⟨hwf3, he3, hchar, hpres, hkeyinv⟩ :=
      process_tail_spec db db1 db1 e p p a hpa hpm hpy hl hmem01 hchar01
        hpres01 hwf1.1 hp1 hwf1 he1 hp1 rfl (sameKey_refl p) hnp
        (fun r' hr' => .inl hr') (fun r hr _ => hr)
        (fun r _ _ _ hinv => hinv)
    exact ⟨update_from_leaf db1 p.eid, hproc, hwf3, he3, hchar, hpres, hkeyinv⟩
  · -- link the leaf first
    have hcond : e.is_leaf ∧ e.eid ∉ p.leafs := ⟨hl, hlink⟩
    have hproc : process_ancestor db e a
        = .ok (update_from_leaf
            (setRow db1 { p with leafs := p.leafs ++ [e.eid] }) p.eid) := by
      simp only [process_ancestor, hgoc, Except.bind, bind, if_pos hcond]
    obtain ⟨hwfL, hpL, hsurvL, hcharL, hpresL⟩ :=
      link_leaf_spec db1 e p hwf1 he1 hl hp1 hnp
    have he2 : e ∈ (setRow db1 { p with leafs := p.leafs ++ [e.eid] }).rows :=
      hsurvL e he1 hl
    have hpres12 : ∀ r, r ∈ db1.rows →
        r ∈ (setRow db1 { p with leafs := p.leafs ++ [e.eid] }).rows →
        ¬ r.is_leaf → rollupInv db1.rows r →
        rollupInv (setRow db1 { p with leafs := p.leafs ++ [e.eid] }).rows r := by
      intro r hr1 _ hnr hinv
      have hni : p.eid ∉ r.leafs :=
        nonleaf_eid_not_in_leafs hwf1.1 hwf1.2.2.1 hp1 hnp hr1
      constructor
      · show r.total = sumTotal
          (setRow db1 { p with leafs := p.leafs ++ [e.eid] }).rows r.leafs
        unfold sumTotal
        rw [hpresL r.leafs hni]
        exact hinv.1
      · show r.consumed = sumConsumed
          (setRow db1 { p with leafs := p.leafs ++ [e.eid] }).rows r.leafs
        unfold sumConsumed
        rw [hpresL r.leafs hni]
        exact hinv.2
    obtain ⟨hwf3, he3, hchar, hpres, hkeyinv⟩ :=
      process_tail_spec db db1
        (setRow db1 { p with leafs := p.leafs ++ [e.eid] }) e p
        { p with leafs := p.leafs ++ [e.eid] } a hpa hpm hpy hl hmem01
        hchar01 hpres01 hwf1.1 hp1 hwfL he2 hpL rfl (sameKey_refl p) hnp
        hcharL
        (fun r hr hne => mem_setRow_of_ne hr hne)
        hpres12
    exact ⟨_, hproc, hwf3, he3, hchar, hpres, hkeyinv⟩

/-- C1: after a propagation step (`update_ancestors` of a leaf estimate,
which calls `update_from_leaf` on every ancestor row), every non-leaf
estimate's `total` and `consumed` equal the sums of the `total` / `consumed`
fields of the estimates in its `leafs` set.  The hypotheses state the
well-formedness the code itself maintains — unique primary keys, a fresh key
sequence, `leafs` sets referencing existing leaf rows, one row per
`(scope, month, year)` — and that before the step only rows keyed to the
triggering leaf's ancestors and period may violate the sum invariant (those
are exactly the rows invalidated by the leaf's change). -/
theorem update_ancestors_rollup (e : Estimate) :
    ∀ (ancestors : List Scope) (db db' : DB),
      Wf db → e ∈ db.rows → e.is_leaf →
      (∀ a ∈ ancestors, ¬ is_leaf_scope a) →
      PreInv e ancestors db →
      update_ancestors db e ancestors = .ok db' →
      ∀ p ∈ db'.rows, ¬ p.is_leaf → rollupInv db'.rows p := by
  intro ancestors
  induction ancestors with
  | nil =>
    intro db db' hwf he hl hanc hpre hok p hp hnp
    have hdb : db = db' := by
      simpa [update_ancestors] using hok
    subst hdb
    rcases hpre p hp hnp with h | h
    · exact h
    · simp at h
  | cons a rest ih =>
    intro db db' hwf he hl hanc hpre hok
    obtain ⟨db3, hproc, hwf3, he3, hchar, hpres, hkeyinv⟩ :=
      process_ancestor_spec db e a hwf he hl (hanc a (by simp))
    have hok' : update_ancestors db3 e rest = .ok db' := by
      simpa [update_ancestors, hproc, Except.bind, bind] using hok
    have hpre3 : PreInv e rest db3 := by
      intro p hp hnp
      rcases hchar p hp with h0 | hkey
      · rcases hpre p h0 hnp with hinv | ⟨hsc, hm, hy⟩
        · exact .inl (hpres p h0 hp hnp hinv)
        · rcases List.mem_cons.mp hsc with heq | hrest
          · exact .inl (hkeyinv p hp ⟨heq, hm, hy⟩)
          · exact .inr ⟨hrest, hm, hy⟩
      · exact .inl (hkeyinv p hp hkey)
    exact ih db3 db' hwf3 he3 hl
      (fun x hx => hanc x (by simp [hx])) hpre3 hok'

/-- C1's concrete propagation input: a leaf estimate over resource 1 for
February 2020 with `total = consumed = 1`. -/
def eW : Estimate := ⟨0, ⟨ScopeType.resource, 1⟩, 2, 2020, false, true, 1, 1, []⟩

/-- A stale ancestor row (service-project-link 4) already linked to the
leaf but carrying out-of-date sums. -/
def splRowW : Estimate :=
  ⟨1, ⟨ScopeType.serviceProjectLink, 4⟩, 2, 2020, false, true, 0, 0, [0]⟩

/-- The C1 witness table: the leaf and its stale ancestor row. -/
def dbW : DB := ⟨[eW, splRowW], 2⟩

/-- The ancestor chain of resource 1: its link, then the customer. -/
def ancW : List Scope :=
  [⟨ScopeType.serviceProjectLink, 4⟩, ⟨ScopeType.customer, 9⟩]

/-- The table after propagation: the link row re-summed, a customer row
created, linked and summed. -/
def dbW' : DB :=
  ⟨[eW,
    ⟨1, ⟨ScopeType.serviceProjectLink, 4⟩, 2, 2020, false, true, 1, 1, [0]⟩,
    ⟨2, ⟨ScopeType.customer, 9⟩, 2, 2020, false, true, 1, 1, [0]⟩], 3⟩

set_option maxRecDepth 100000 in
/-- C1, witness: the roll-up theorem applied to the concrete two-level
propagation `dbW → dbW'`, every hypothesis checked by evaluation. -/
theorem update_ancestors_rollup_witness :
    (Wf dbW ∧ eW ∈ dbW.rows ∧ eW.is_leaf ∧
        (∀ a ∈ ancW, ¬ is_leaf_scope a) ∧ PreInv eW ancW dbW ∧
        update_ancestors dbW eW ancW = .ok dbW') ∧
      (∀ p ∈ dbW'.rows, ¬ p.is_leaf → rollupInv dbW'.rows p) :=
  ⟨⟨by decide, by decide, by decide, by decide,
      by with_unfolding_all decide, by with_unfolding_all decide⟩,
    update_ancestors_rollup eW ancW dbW dbW' (by decide) (by decide)
      (by decide) (by decide) (by with_unfolding_all decide)
      (by with_unfolding_all decide)⟩

/-- C9's failing input: a leaf estimate and a MANUAL ancestor estimate for
the same period — the only estimate the customer scope has. -/
def leafEst : Estimate :=
  ⟨0, ⟨ScopeType.resource, 1⟩, 1, 2020, false, true, 5, 5, []⟩

/-- The manually input customer estimate, `total = consumed = 999`. -/
def manualEst : Estimate :=
  ⟨1, ⟨ScopeType.customer, 7⟩, 1, 2020, true, true, 999, 999, []⟩

/-- The C9 table: the leaf and the manual customer estimate. -/
def dbManual : DB := ⟨[leafEst, manualEst], 2⟩

set_option maxRecDepth 100000 in
/-- C9: evaluation of `update_ancestors` at the failing input.  Because the
`get_or_create` of `update_ancestors` does not filter on
`is_manually_input`, the manual customer estimate is fetched as the
ancestor's row, the leaf is linked into it, and `update_from_leaf`
overwrites its `total` and `consumed` (999 → 5) while it stays marked
manual — contradicting the claim that manual estimates are never
modified.  (With both a manual and an automatic row present for the same
key, the same unfiltered `get` raises `MultipleObjectsReturned` instead.) -/
theorem update_ancestors_overwrites_manual :
    update_ancestors dbManual leafEst [⟨ScopeType.customer, 7⟩]
        = .ok ⟨[leafEst,
            ⟨1, ⟨ScopeType.customer, 7⟩, 1, 2020, true, true, 5, 5, [0]⟩], 2⟩ ∧
      manualEst.is_manually_input = true ∧ manualEst.total = 999 ∧
      (999 : ℚ) ≠ 5 := by
  with_unfolding_all decide

/-- Modelled from the spec: the REST-layer handler that creates a manually
input `PriceEstimate` is not among the sources under verification (only its
tests are).  Per the spec, creating a manual estimate for a `(scope, month, year)`
sets `is_visible = False` on the automatic estimate for that key and stores
the new manual estimate as visible. -/
def create_manual_estimate (db : DB) (scope : Scope) (month year : ℕ)
    (total : ℚ) : DB :=
  ⟨(db.rows.map (fun r =>
      if r.scope = scope ∧ r.month = month ∧ r.year = year ∧
          r.is_manually_input = false
      then { r with is_visible := false } else r))
    ++ [⟨db.nextId, scope, month, year, true, true, total, 0, []⟩],
   db.nextId + 1⟩

/-- Modelled from the spec: the deletion handler for a manually input
`PriceEstimate` is not among the sources under verification (only its tests
are).  Per the spec, deleting the manual estimate for a `(scope, month, year)`
removes that row and sets `is_visible = True` back on the automatic
estimate for the same key. -/
def delete_manual_estimate (db : DB) (scope : Scope) (month year : ℕ) : DB :=
  ⟨(db.rows.filter (fun r => decide (¬(r.scope = scope ∧ r.month = month ∧
      r.year = year ∧ r.is_manually_input = true)))).map
    (fun r =>
      if r.scope = scope ∧ r.month = month ∧ r.year = year ∧
          r.is_manually_input = false
      then { r with is_visible := true } else r),
   db.nextId⟩

/-- C3: for a `(scope, month, year)` that has an automatic estimate (and no
manual one yet), creating a manual estimate hides the automatic one without
deleting it, at most one visible estimate remains for the key, and deleting
the manual estimate re-reveals the automatic one, still undeleted. -/
theorem manual_estimate_visibility (db : DB) (scope : Scope)
    (month year : ℕ) (total : ℚ) (auto : Estimate)
    (hauto : auto ∈ db.rows) (hsc : auto.scope = scope)
    (hm : auto.month = month) (hy : auto.year = year)
    (hman : auto.is_manually_input = false)
    (hnoman : ∀ r ∈ db.rows, r.scope = scope → r.month = month →
      r.year = year → r.is_manually_input = false) :
    ({ auto with is_visible := false }
        ∈ (create_manual_estimate db scope month year total).rows) ∧
      ((create_manual_estimate db scope month year total).rows.filter
          (fun r => decide ((r.scope = scope ∧ r.month = month ∧
            r.year = year) ∧ r.is_visible = true))).length ≤ 1 ∧
      ({ auto with is_visible := true }
        ∈ (delete_manual_estimate
            (create_manual_estimate db scope month year total)
            scope month year).rows) := by
  have hcond : auto.scope = scope ∧ auto.month = month ∧ auto.year = year ∧
      auto.is_manually_input = false := ⟨hsc, hm, hy, hman⟩
  have hhidden : { auto with is_visible := false }
      ∈ (create_manual_estimate db scope month year total).rows := by
    refine List.mem_append.mpr (.inl ?_)
    exact List.mem_map.mpr ⟨auto, hauto, by rw [if_pos hcond]⟩
  refine ⟨hhidden, ?_, ?_⟩
  · -- at most one visible row for the key after the create
    rw [create_manual_estimate, List.filter_append]
    have hmapped : (db.rows.map (fun r =>
        if r.scope = scope ∧ r.month = month ∧ r.year = year ∧
            r.is_manually_input = false
        then { r with is_visible := false } else r)).filter
          (fun r => decide ((r.scope = scope ∧ r.month = month ∧
            r.year = year) ∧ r.is_visible = true)) = [] := by
      rw [List.filter_eq_nil_iff]
      intro x hx
      obtain ⟨r, hr, hrx⟩ := List.mem_map.mp hx
      by_cases hc : r.scope = scope ∧ r.month = month ∧ r.year = year ∧
          r.is_manually_input = false
      · rw [if_pos hc] at hrx
        simp [← hrx]
      · rw [if_neg hc] at hrx
        subst hrx
        simp only [decide_eq_true_eq, not_and]
        intro hk _
        exact absurd ⟨hk.1, hk.2.1, hk.2.2,
          hnoman r hr hk.1 hk.2.1 hk.2.2⟩ hc
    rw [hmapped]
    simp
  · -- the delete re-reveals the automatic row
    have hkeep : { auto with is_visible := false }
        ∈ (create_manual_estimate db scope month year total).rows.filter
          (fun r => decide (¬(r.scope = scope ∧ r.month = month ∧
            r.year = year ∧ r.is_manually_input = true))) := by
      rw [List.mem_filter]
      refine ⟨hhidden, ?_⟩
      simp [hman]
    refine List.mem_map.mpr ⟨{ auto with is_visible := false }, hkeep, ?_⟩
    rw [if_pos ⟨hsc, hm, hy, hman⟩]

/-- C3's concrete table: one automatic, visible estimate for
service-project-link 5, July 2015. -/
def autoC3 : Estimate :=
  ⟨0, ⟨ScopeType.serviceProjectLink, 5⟩, 7, 2015, false, true, 100, 50, []⟩

/-- The C3 witness table. -/
def dbC3 : DB := ⟨[autoC3], 1⟩

/-- C3, witness: the visibility theorem applied to the one-row table, the
manual estimate entered with `total = 42`. -/
theorem manual_estimate_visibility_witness :
    (autoC3 ∈ dbC3.rows ∧
        autoC3.scope = (⟨ScopeType.serviceProjectLink, 5⟩ : Scope) ∧
        autoC3.month = 7 ∧ autoC3.year = 2015 ∧
        autoC3.is_manually_input = false ∧
        (∀ r ∈ dbC3.rows, r.scope = (⟨ScopeType.serviceProjectLink, 5⟩ : Scope) →
          r.month = 7 → r.year = 2015 → r.is_manually_input = false)) ∧
      (({ autoC3 with is_visible := false }
          ∈ (create_manual_estimate dbC3 ⟨ScopeType.serviceProjectLink, 5⟩
              7 2015 42).rows) ∧
        ((create_manual_estimate dbC3 ⟨ScopeType.serviceProjectLink, 5⟩
            7 2015 42).rows.filter
          (fun r => decide ((r.scope = (⟨ScopeType.serviceProjectLink, 5⟩ : Scope) ∧
            r.month = 7 ∧ r.year = 2015) ∧ r.is_visible = true))).length ≤ 1 ∧
        ({ autoC3 with is_visible := true }
          ∈ (delete_manual_estimate
              (create_manual_estimate dbC3 ⟨ScopeType.serviceProjectLink, 5⟩
                7 2015 42)
              ⟨ScopeType.serviceProjectLink, 5⟩ 7 2015).rows)) :=
  ⟨⟨by decide, rfl, rfl, rfl, rfl, by decide⟩,
    manual_estimate_visibility dbC3 ⟨ScopeType.serviceProjectLink, 5⟩ 7 2015
      42 autoC3 (by decide) rfl rfl rfl rfl (by decide)⟩

theorem find_estimate_pred {s : List EstimateRow} {month year : ℕ}
    {r : EstimateRow} (h : find_estimate s month year = some r) :
    r.month = month ∧ r.year = year ∧ r.is_manually_input = false := by
  have := List.find?_some h
  simpa using this

theorem find_estimate_cons_of_pos (r : EstimateRow) (rs : List EstimateRow)
    (month year : ℕ)
    (h : r.month = month ∧ r.year = year ∧ r.is_manually_input = false) :
    find_estimate (r :: rs) month year = some r := by
  unfold find_estimate
  exact List.find?_cons_of_pos _ (by simp [h.1, h.2.1, h.2.2])

theorem find_estimate_cons_of_neg (r : EstimateRow) (rs : List EstimateRow)
    (month year : ℕ)
    (h : ¬(r.month = month ∧ r.year = year ∧ r.is_manually_input = false)) :
    find_estimate (r :: rs) month year = find_estimate rs month year := by
  unfold find_estimate
  exact List.find?_cons_of_neg _ (by simpa using h)

theorem find_update_estimate_self (month year : ℕ) (t : ℚ) (c : Option ℚ)
    (u : Bool) (s : List EstimateRow) :
    find_estimate (update_estimate month year t c u s) month year
      = some (match find_estimate s month year with
          | none => ⟨month, year, false, t, c.getD t⟩
          | some r => if u then { r with total := t, consumed := c.getD t }
              else r) := by
  induction s with
  | nil => simp [update_estimate, find_estimate]
  | cons r rs ih =>
    by_cases h : r.month = month ∧ r.year = year ∧ r.is_manually_input = false
    · rw [update_estimate, if_pos h]
      simp only [find_estimate_cons_of_pos r rs month year h]
      by_cases hu : u = true
      · rw [if_pos hu, if_pos hu]
        exact find_estimate_cons_of_pos _ rs month year ⟨h.1, h.2.1, h.2.2⟩
      · rw [if_neg hu, if_neg hu]
        exact find_estimate_cons_of_pos r rs month year h
    · rw [update_estimate, if_neg h]
      rw [find_estimate_cons_of_neg r _ month year h,
        find_estimate_cons_of_neg r rs month year h]
      exact ih

theorem find_update_estimate_other (month year m' y' : ℕ) (t : ℚ)
    (c : Option ℚ) (u : Bool) (s : List EstimateRow)
    (hne : ¬(m' = month ∧ y' = year)) :
    find_estimate (update_estimate month year t c u s) m' y'
      = find_estimate s m' y' := by
  have hkey : ∀ x : EstimateRow, x.month = month → x.year = year →
      ¬(x.month = m' ∧ x.year = y' ∧ x.is_manually_input = false) := by
    intro x hxm hxy hx
    refine hne ⟨?_, ?_⟩
    · rw [← hx.1, hxm]
    · rw [← hx.2.1, hxy]
  induction s with
  | nil =>
    show find_estimate [⟨month, year, false, t, c.getD t⟩] m' y'
      = find_estimate [] m' y'
    rw [find_estimate_cons_of_neg _ _ m' y' (hkey _ rfl rfl)]
  | cons r rs ih =>
    by_cases h : r.month = month ∧ r.year = year ∧ r.is_manually_input = false
    · rw [update_estimate, if_pos h]
      by_cases hu : u = true
      · rw [if_pos hu]
        rw [find_estimate_cons_of_neg r rs m' y' (hkey r h.1 h.2.1)]
        exact find_estimate_cons_of_neg _ rs m' y' (hkey _ h.1 h.2.1)
      · rw [if_neg hu]
    · rw [update_estimate, if_neg h]
      by_cases hr : r.month = m' ∧ r.year = y' ∧ r.is_manually_input = false
      · rw [find_estimate_cons_of_pos r _ m' y' hr,
          find_estimate_cons_of_pos r rs m' y' hr]
      · rw [find_estimate_cons_of_neg r _ m' y' hr,
          find_estimate_cons_of_neg r rs m' y' hr]
        exact ih

/-- A calendar-sane `(year, month)` pair: positive year, month in 1..12. -/
abbrev validMonthP : ℕ × ℕ → Prop
  | (y, m) => 1 ≤ y ∧ 1 ≤ m ∧ m ≤ 12

/-- `monthIndex` on a `(year, month)` pair. -/
def monthIndexP : ℕ × ℕ → ℕ
  | (y, m) => monthIndex y m

theorem monthIndexP_ge (d : ℕ × ℕ) (hv : validMonthP d) :
    12 ≤ monthIndexP d := by
  obtain ⟨y, m⟩ := d
  obtain ⟨h1, h2, h3⟩ := hv
  simp only [monthIndexP, monthIndex]
  omega

theorem prevMonth_valid (d : ℕ × ℕ) (hv : validMonthP d)
    (h : 12 < monthIndexP d) :
    validMonthP (prevMonth d) ∧
      monthIndexP (prevMonth d) = monthIndexP d - 1 := by
  obtain ⟨y, m⟩ := d
  obtain ⟨h1, h2, h3⟩ := hv
  simp only [monthIndexP, monthIndex] at h
  by_cases hm : m = 1
  · subst hm
    have hp : prevMonth (y, 1) = (y - 1, 12) := by simp [prevMonth]
    rw [hp]
    refine ⟨⟨by omega, by norm_num, by norm_num⟩, ?_⟩
    simp only [monthIndexP, monthIndex]
    omega
  · have hp : prevMonth (y, m) = (y, m - 1) := by simp [prevMonth, hm]
    rw [hp]
    refine ⟨⟨h1, by omega, by omega⟩, ?_⟩
    simp only [monthIndexP, monthIndex]
    omega

theorem monthIndexP_inj {d1 d2 : ℕ × ℕ} (h1 : validMonthP d1)
    (h2 : validMonthP d2) (h : monthIndexP d1 = monthIndexP d2) : d1 = d2 := by
  obtain ⟨y1, m1⟩ := d1
  obtain ⟨y2, m2⟩ := d2
  obtain ⟨ha, hb, hc⟩ := h1
  obtain ⟨hd, he, hf⟩ := h2
  simp only [monthIndexP, monthIndex] at h
  have : y1 = y2 ∧ m1 = m2 := by omega
  simp [this.1, this.2]

/-- Behaviour of the back-propagation walk: starting from `date` with fuel
equal to the month gap, it creates (never overwriting) a full-month estimate
at `monthly_cost` for exactly the months with index in
`(monthIndex target, monthIndex date]`, and touches nothing else. -/
theorem backfill_spec (mc : ℚ) (target : ℕ × ℕ) (htv : validMonthP target) :
    ∀ (fuel : ℕ) (date : ℕ × ℕ) (s : List EstimateRow),
      validMonthP date →
      monthIndexP target ≤ monthIndexP date →
      fuel = monthIndexP date + 1 - monthIndexP target →
      ∀ (y m : ℕ), validMonthP (y, m) →
        find_estimate (backfill mc target fuel date s) m y
          = if monthIndexP target < monthIndexP (y, m) ∧
              monthIndexP (y, m) ≤ monthIndexP date then
              (match find_estimate s m y with
                | none => some ⟨m, y, false, mc, mc⟩
                | some r => some r)
            else find_estimate s m y := by
  intro fuel
  induction fuel with
  | zero =>
    intro date s hv hle hfuel
    exact absurd hfuel (by omega)
  | succ fuel ih =>
    intro date s hv hle hfuel y m hq
    obtain ⟨dy, dm⟩ := date
    by_cases hdt : ((dy, dm) : ℕ × ℕ) = target
    · subst hdt
      have hred : backfill mc (dy, dm) (fuel + 1) (dy, dm) s = s := by
        simp [backfill]
      have hcond : ¬(monthIndexP (dy, dm) < monthIndexP (y, m) ∧
          monthIndexP (y, m) ≤ monthIndexP (dy, dm)) := by omega
      rw [hred, if_neg hcond]
    · have hne : monthIndexP target ≠ monthIndexP (dy, dm) :=
        fun hh => hdt (monthIndexP_inj hv htv hh.symm)
      have hlt : monthIndexP target < monthIndexP (dy, dm) :=
        lt_of_le_of_ne hle hne
      have h12 : 12 < monthIndexP (dy, dm) :=
        lt_of_le_of_lt (monthIndexP_ge target htv) hlt
      obtain ⟨hvp, hip⟩ := prevMonth_valid (dy, dm) hv h12
      have hle' : monthIndexP target ≤ monthIndexP (prevMonth (dy, dm)) := by
        omega
      have hfuel' : fuel
          = monthIndexP (prevMonth (dy, dm)) + 1 - monthIndexP target := by
        omega
      simp only [backfill]
      rw [if_neg hdt]
      rw [ih (prevMonth (dy, dm))
        (update_estimate dm dy mc none false s) hvp hle' hfuel' y m hq]
      by_cases hqd : y = dy ∧ m = dm
      · obtain ⟨rfl, rfl⟩ := hqd
        have hnotp : ¬(monthIndexP target < monthIndexP (y, m) ∧
            monthIndexP (y, m) ≤ monthIndexP (prevMonth (y, m))) := by
          omega
        rw [if_neg hnotp]
        rw [if_pos ⟨hlt, le_refl _⟩]
        rw [find_update_estimate_self m y mc none false s]
        rcases hX : find_estimate s m y with _ | r
        · simp
        · simp
      · have hnq : ¬(m = dm ∧ y = dy) := fun hh => hqd ⟨hh.2, hh.1⟩
        have hother : find_estimate (update_estimate dm dy mc none false s) m y
            = find_estimate s m y :=
          find_update_estimate_other dm dy m y mc none false s hnq
        have hqne : monthIndexP (y, m) ≠ monthIndexP (dy, dm) := by
          intro hh
          have := monthIndexP_inj hq hv hh
          rw [Prod.mk.injEq] at this
          exact hqd this
        by_cases hin : monthIndexP target < monthIndexP (y, m) ∧
            monthIndexP (y, m) ≤ monthIndexP (dy, dm)
        · have hin' : monthIndexP target < monthIndexP (y, m) ∧
              monthIndexP (y, m) ≤ monthIndexP (prevMonth (dy, dm)) := by
            omega
          rw [if_pos hin', if_pos hin, hother]
        · have hin' : ¬(monthIndexP target < monthIndexP (y, m) ∧
              monthIndexP (y, m) ≤ monthIndexP (prevMonth (dy, dm))) := by
            omega
          rw [if_neg hin', if_neg hin, hother]

/-- C7: for a resource created strictly before the current month,
`update_price_for_resource` with `back_propagate_price=True` (backend
monthly cost `mc`): the current month's row is written (created or
overwritten) with `total = mc` and consumed prorated from the month start;
the creation month's row is created with the prorated first-partial-month
total but never overwritten when present; and every month strictly between
gets a row at `total = consumed = mc`, created only when absent.  (As in
the source, all prorations divide by the seconds of the CREATION month.) -/
theorem update_price_back_propagate (mc : ℚ) (now created : DateTime)
    (s : List EstimateRow)
    (hvn : validMonthP (now.year, now.month))
    (hvc : validMonthP (created.year, created.month))
    (hlt : monthIndex created.year created.month
      < monthIndex now.year now.month) :
    (find_estimate (update_price_for_resource (.ok mc) now created true s)
        now.month now.year
      = some ⟨now.month, now.year, false, mc,
          prorata_cost mc (seconds_in_month created.year created.month)
            (secondsIntoMonth now)⟩) ∧
    ((find_estimate s created.month created.year = none →
        find_estimate (update_price_for_resource (.ok mc) now created true s)
            created.month created.year
          = some ⟨created.month, created.year, false,
              prorata_cost mc (seconds_in_month created.year created.month)
                ((seconds_in_month created.year created.month : ℚ)
                  - secondsIntoMonth created),
              prorata_cost mc (seconds_in_month created.year created.month)
                ((seconds_in_month created.year created.month : ℚ)
                  - secondsIntoMonth created)⟩) ∧
      (∀ r, find_estimate s created.month created.year = some r →
        find_estimate (update_price_for_resource (.ok mc) now created true s)
            created.month created.year = some r)) ∧
    (∀ y m, validMonthP (y, m) →
      monthIndex created.year created.month < monthIndex y m →
      monthIndex y m < monthIndex now.year now.month →
      ((find_estimate s m y = none →
          find_estimate (update_price_for_resource (.ok mc) now created true s)
            m y = some ⟨m, y, false, mc, mc⟩) ∧
        (∀ r, find_estimate s m y = some r →
          find_estimate (update_price_for_resource (.ok mc) now created true s)
            m y = some r))) := by
  have hcm : ¬(created.month = now.month ∧ created.year = now.year) := by
    intro hh
    rw [hh.1, hh.2] at hlt
    exact lt_irrefl _ hlt
  have hcm' : ¬(now.month = created.month ∧ now.year = created.year) :=
    fun hh => hcm ⟨hh.1.symm, hh.2.symm⟩
  have hsimp : update_price_for_resource (.ok mc) now created true s
      = backfill mc (created.year, created.month)
          (monthIndex now.year now.month
            - monthIndex created.year created.month)
          (prevMonth (now.year, now.month))
          (update_estimate created.month created.year
            (prorata_cost mc (seconds_in_month created.year created.month)
              ((seconds_in_month created.year created.month : ℚ)
                - secondsIntoMonth created))
            none false
            (update_estimate now.month now.year mc
              (some (prorata_cost mc
                (seconds_in_month created.year created.month)
                (secondsIntoMonth now)))
              true s)) := by
    simp only [update_price_for_resource]
    rw [if_neg hcm]
    simp
  rw [hsimp]
  have h12 : 12 < monthIndexP (now.year, now.month) := by
    have h1 := monthIndexP_ge (created.year, created.month) hvc
    simp only [monthIndexP] at h1 ⊢
    omega
  obtain ⟨hvp, hip⟩ := prevMonth_valid (now.year, now.month) hvn h12
  have htle : monthIndexP (created.year, created.month)
      ≤ monthIndexP (prevMonth (now.year, now.month)) := by
    simp only [monthIndexP] at hip ⊢
    omega
  have hfuel : monthIndex now.year now.month
        - monthIndex created.year created.month
      = monthIndexP (prevMonth (now.year, now.month)) + 1
        - monthIndexP (created.year, created.month) := by
    simp only [monthIndexP] at hip ⊢
    omega
  have bspec := backfill_spec mc (created.year, created.month) hvc
    (monthIndex now.year now.month - monthIndex created.year created.month)
    (prevMonth (now.year, now.month))
    (update_estimate created.month created.year
      (prorata_cost mc (seconds_in_month created.year created.month)
        ((seconds_in_month created.year created.month : ℚ)
          - secondsIntoMonth created))
      none false
      (update_estimate now.month now.year mc
        (some (prorata_cost mc (seconds_in_month created.year created.month)
          (secondsIntoMonth now)))
        true s))
    hvp htle hfuel
  refine ⟨?_, ⟨?_, ?_⟩, ?_⟩
  · -- (a) the current month
    rw [bspec now.year now.month hvn]
    rw [if_neg (by
      simp only [monthIndexP] at hip ⊢
      omega)]
    rw [find_update_estimate_other created.month created.year
      now.month now.year _ none false _ hcm']
    rw [find_update_estimate_self now.month now.year mc _ true s]
    rcases hX : find_estimate s now.month now.year with _ | r
    · simp
    · obtain ⟨hm', hy', hman'⟩ := find_estimate_pred hX
      rcases r with ⟨rm, ry, ri, rt, rc⟩
      simp only at hm' hy' hman'
      simp [hm', hy', hman']
  · -- (b) creation month, absent: created with the prorated total
    intro hnone
    rw [bspec created.year created.month hvc]
    rw [if_neg (by
      simp only [monthIndexP]
      omega)]
    rw [find_update_estimate_self created.month created.year _ none false _]
    rw [find_update_estimate_other now.month now.year
      created.month created.year mc _ true s hcm]
    rw [hnone]
    simp
  · -- (b) creation month, present: never overwritten
    intro r hsome
    rw [bspec created.year created.month hvc]
    rw [if_neg (by
      simp only [monthIndexP]
      omega)]
    rw [find_update_estimate_self created.month created.year _ none false _]
    rw [find_update_estimate_other now.month now.year
      created.month created.year mc _ true s hcm]
    rw [hsome]
    simp
  · -- (c) strictly intervening months
    intro y m hq hlt1 hlt2
    have hqc : ¬(m = created.month ∧ y = created.year) := by
      intro hh
      rw [hh.1, hh.2] at hlt1
      exact lt_irrefl _ hlt1
    have hqn : ¬(m = now.month ∧ y = now.year) := by
      intro hh
      rw [hh.1, hh.2] at hlt2
      exact lt_irrefl _ hlt2
    have hrw : find_estimate (backfill mc (created.year, created.month)
        (monthIndex now.year now.month - monthIndex created.year created.month)
        (prevMonth (now.year, now.month))
        (update_estimate created.month created.year
          (prorata_cost mc (seconds_in_month created.year created.month)
            ((seconds_in_month created.year created.month : ℚ)
              - secondsIntoMonth created))
          none false
          (update_estimate now.month now.year mc
            (some (prorata_cost mc
              (seconds_in_month created.year created.month)
              (secondsIntoMonth now)))
            true s))) m y
        = match find_estimate s m y with
          | none => some ⟨m, y, false, mc, mc⟩
          | some r => some r := by
      rw [bspec y m hq]
      rw [if_pos (by
        constructor
        · simp only [monthIndexP]
          omega
        · simp only [monthIndexP] at hip ⊢
          omega)]
      rw [find_update_estimate_other created.month created.year m y _ none
        false _ hqc]
      rw [find_update_estimate_other now.month now.year m y mc _ true s hqn]
    constructor
    · intro hnone
      rw [hrw, hnone]
    · intro r hsome
      rw [hrw, hsome]

/-- C7's concrete input: current time September 10, 2015. -/
def nowC7 : DateTime := ⟨2015, 9, 10, 0, 0, 0⟩

/-- C7's concrete input: resource created June 20, 2015. -/
def createdC7 : DateTime := ⟨2015, 6, 20, 0, 0, 0⟩

/-- C7's concrete stored rows: a pre-existing estimate for August 2015. -/
def sC7 : List EstimateRow := [⟨8, 2015, false, 77, 66⟩]

/-- C7, witness: the back-propagation theorem applied to a resource created
in June 2015, updated in September 2015 with `monthly_cost = 30`, over a
table already holding an estimate for the intervening month August 2015 —
whose row the walk must not overwrite. -/
theorem update_price_back_propagate_witness :
    (validMonthP (nowC7.year, nowC7.month) ∧
        validMonthP (createdC7.year, createdC7.month) ∧
        monthIndex createdC7.year createdC7.month
          < monthIndex nowC7.year nowC7.month ∧
        validMonthP (2015, 8) ∧
        find_estimate sC7 8 2015 = some ⟨8, 2015, false, 77, 66⟩) ∧
      find_estimate
          (update_price_for_resource (.ok 30) nowC7 createdC7 true sC7)
          8 2015
        = some ⟨8, 2015, false, 77, 66⟩ :=
  ⟨⟨by decide, by decide, by decide, by decide, by decide⟩,
    ((update_price_back_propagate 30 nowC7 createdC7 sC7 (by decide)
        (by decide) (by decide)).2.2 2015 8 (by decide) (by decide)
        (by decide)).2
      ⟨8, 2015, false, 77, 66⟩ (by decide)⟩

end CostTracking
